import Mathlib

/-!
A verification development for the `obj` crate: the `.mtl` material parser
(`src/mtl.rs`) embedded directly from the Rust source, and the `.obj` geometry
loader/writer modelled from the specification (the geometry implementation
file is not part of the sources; only its tests are, so it is modelled from
the spec and pinned against the observable behaviour recorded in the tests).

Conventions of the embedding:
* A line-buffered reader is assumed as input (per the spec, stream I/O is an
  external collaborator), so loaders take the list of lines of the file and
  the writer produces the list of lines it would emit.  `Io` error variants
  that merely wrap stream failures are therefore not modelled.
* Rust `f32` values are modelled by `F32`, the exact decimal reading of the
  token: a mantissa and a count of decimal places (value `man / 10 ^ exp`).
  Parsing is exact (no IEEE rounding); the special spellings `inf`/`NaN` and
  overflow-to-infinity are outside the model.  No claim below depends on
  rounding or on those spellings.
* Fallible operations return `Except`, mirroring Rust `Result`.
-/

/-! ## Characters, whitespace tokenisation -/

/-- Whitespace test used by the tokenizer; matches `char::is_whitespace` on the
ASCII whitespace that can occur in a line of these text formats. -/
def isWsCh (c : Char) : Bool :=
  c = ' ' || c = '\t' || c = '\r' || c = '\n'

/-- Digit test, `c.isDigit`. -/
def isDigitCh (c : Char) : Bool :=
  '0' ≤ c && c ≤ '9'

/-- Worker for `splitWhitespace`: `cur` is the reversed current token. -/
def splitWsAux : List Char → List Char → List (List Char)
  | cur, [] => if cur.isEmpty then [] else [cur.reverse]
  | cur, c :: cs =>
    if isWsCh c then
      if cur.isEmpty then splitWsAux [] cs else cur.reverse :: splitWsAux [] cs
    else
      splitWsAux (c :: cur) cs

/-- Model of `line.split_whitespace().filter(|s| !s.is_empty())`: the non-empty
whitespace-delimited tokens of a line, in order. -/
def splitWhitespace (s : String) : List String :=
  (splitWsAux [] s.data).map String.mk

/-- Join tokens with single spaces (`Vec::join(" ")` / the fold in
`Parser::into_string`). -/
def joinSpace : List String → String
  | [] => ""
  | [t] => t
  | t :: ts => t ++ " " ++ joinSpace ts

/-! ## Digits and integers -/

/-- The character of a decimal digit. -/
def digitChar : ℕ → Char
  | 0 => '0' | 1 => '1' | 2 => '2' | 3 => '3' | 4 => '4'
  | 5 => '5' | 6 => '6' | 7 => '7' | 8 => '8' | _ => '9'

/-- Numeric value of a digit character. -/
def digitVal (c : Char) : ℕ := c.toNat - 48

/-- Value of a big-endian digit string (assuming all characters are digits). -/
def natVal (cs : List Char) : ℕ :=
  cs.foldl (fun a c => a * 10 + digitVal c) 0

/-- Big-endian digit characters of `n` (no leading zeros; `[]` for `0`);
`fuel` bounds the recursion and any `fuel ≥ n` is exact. -/
def natDigits : ℕ → ℕ → List Char
  | 0, _ => []
  | _ + 1, 0 => []
  | fuel + 1, n => natDigits fuel (n / 10) ++ [digitChar (n % 10)]

/-- Decimal rendering of a natural number (Rust's `Display` for unsigned
integers). -/
def renderNat (n : ℕ) : String :=
  if n = 0 then "0" else String.mk (natDigits n n)

/-- Decimal rendering of an integer (Rust's `Display` for signed integers). -/
def renderZ (z : ℤ) : String :=
  if z < 0 then "-" ++ renderNat z.natAbs else renderNat z.natAbs

/-- Parse a non-empty all-digit character run as a natural number. -/
def parseNatDigits (cs : List Char) : Option ℕ :=
  if cs.isEmpty then none
  else if cs.all isDigitCh then some (natVal cs) else none

/-- Strip one optional sign; returns (isNegative, rest).  Mirrors the sign
handling of Rust's integer and float `FromStr`. -/
def stripSign : List Char → Bool × List Char
  | [] => (false, [])
  | c :: cs =>
    if c = '-' then (true, cs)
    else if c = '+' then (false, cs)
    else (false, c :: cs)

/-- Parse a full string as an integer: optional sign then one or more digits,
nothing else.  Used (unbounded) for the geometry index references. -/
def parseZ (s : String) : Option ℤ :=
  let sp := stripSign s.data
  match parseNatDigits sp.2 with
  | none => none
  | some n => some (if sp.1 then -(n : ℤ) else (n : ℤ))

/-- Model of `i32::from_str`: sign, digits, and the `i32` range check
(out-of-range input is a parse error in Rust). -/
def parseI32 (s : String) : Option ℤ :=
  match parseZ s with
  | none => none
  | some z => if -2147483648 ≤ z ∧ z ≤ 2147483647 then some z else none

/-! ## Exact-decimal model of `f32` -/

/-- Powers of ten. -/
def pow10 : ℕ → ℕ
  | 0 => 1
  | k + 1 => 10 * pow10 k

/-- The exact decimal value of a parsed floating token: `man / 10 ^ exp`.
Two tokens denoting the same real number may have distinct representations
(e.g. `0.5` vs `0.50`); every operation in this development treats a value
exactly as it was read, which is faithful for every property proved below. -/
structure F32 where
  man : ℤ
  exp : ℕ
deriving DecidableEq, Repr

/-- Parse the exponent suffix of a float (after `e`/`E`): optional sign then
one or more digits, nothing else. -/
def parseExp (cs : List Char) : Option ℤ :=
  let sp := stripSign cs
  match parseNatDigits sp.2 with
  | none => none
  | some n => some (if sp.1 then -(n : ℤ) else (n : ℤ))

/-- Combine mantissa digits and a decimal exponent into an `F32`:
value `sgn * (man0 / 10 ^ places) * 10 ^ e`, normalised so the stored
exponent is a non-negative count of decimal places. -/
def mkF32 (neg : Bool) (man0 : ℕ) (places : ℕ) (e : ℤ) : F32 :=
  let m : ℤ := if neg then -(man0 : ℤ) else (man0 : ℤ)
  let t : ℤ := (places : ℤ) - e
  if t ≤ 0 then ⟨m * (pow10 (-t).toNat : ℕ), 0⟩ else ⟨m, t.toNat⟩

/-- Model of `f32::from_str` on its decimal grammar:
`sign? (digits+ ('.' digits*)? | digits* '.' digits+) ((e|E) sign? digits+)?`.
The `inf`/`NaN` spellings and rounding/overflow are outside the model (see the
file comment). -/
def parseF32 (s : String) : Option F32 :=
  let neg := (stripSign s.data).1
  let cs := (stripSign s.data).2
  let ip := cs.takeWhile isDigitCh
  let rest := cs.dropWhile isDigitCh
  match rest with
  | [] =>
    if ip.isEmpty then none else some (mkF32 neg (natVal ip) 0 0)
  | '.' :: rest1 =>
    let fp := rest1.takeWhile isDigitCh
    let rest2 := rest1.dropWhile isDigitCh
    if ip.isEmpty ∧ fp.isEmpty then none
    else
      let man0 := natVal ip * pow10 fp.length + natVal fp
      match rest2 with
      | [] => some (mkF32 neg man0 fp.length 0)
      | c :: rest3 =>
        if c = 'e' ∨ c = 'E' then
          match parseExp rest3 with
          | some e => some (mkF32 neg man0 fp.length e)
          | none => none
        else none
  | c :: rest1 =>
    if c = 'e' ∨ c = 'E' then
      if ip.isEmpty then none
      else
        match parseExp rest1 with
        | some e => some (mkF32 neg (natVal ip) 0 e)
        | none => none
    else none

/-- Left-pad the digits of `n` with zeros to exactly `k` characters (the
fractional part of a decimal rendering; meaningful when `n < 10 ^ k`). -/
def padDigits (k : ℕ) (n : ℕ) : List Char :=
  let ds := natDigits n n
  List.replicate (k - ds.length) '0' ++ ds

/-- Decimal rendering of an `F32` (Rust's default `Display` formatting of the
value; integral values render with no decimal point). -/
def renderF32 (v : F32) : String :=
  let a := v.man.natAbs
  let core :=
    if v.exp = 0 then renderNat a
    else renderNat (a / pow10 v.exp) ++ "." ++ String.mk (padDigits v.exp (a % pow10 v.exp))
  if v.man < 0 then "-" ++ core else core

deriving instance DecidableEq for Except

/-! ## The `.mtl` material model — embedded from `src/mtl.rs` -/

/-- `Material` (`src/mtl.rs`): a name and the optional colour/illumination and
texture-map fields.  Note that `map_ke` and `map_ns` are declared in the Rust
struct (and initialised to `None` by `Material::new`) exactly as here. -/
structure Material where
  name : String
  ka : Option (F32 × F32 × F32)
  kd : Option (F32 × F32 × F32)
  ks : Option (F32 × F32 × F32)
  ke : Option (F32 × F32 × F32)
  km : Option F32
  tf : Option (F32 × F32 × F32)
  ns : Option F32
  ni : Option F32
  tr : Option F32
  d : Option F32
  illum : Option ℤ
  map_ka : Option String
  map_kd : Option String
  map_ks : Option String
  map_ke : Option String
  map_ns : Option String
  map_d : Option String
  map_bump : Option String
  map_refl : Option String
deriving DecidableEq, Repr

/-- `Material::new`: all optional fields absent. -/
def Material.new (name : String) : Material :=
  ⟨name, none, none, none, none, none, none, none, none, none, none, none,
   none, none, none, none, none, none, none, none⟩

/-- `MtlMissingType` (`src/mtl.rs`). -/
inductive MtlMissingType where
  | I32
  | F32
  | String
deriving DecidableEq, Repr

/-- `MtlError` (`src/mtl.rs`).  The `Io` variant wraps stream failures and is
not modelled (the loader receives the lines of the file directly). -/
inductive MtlError where
  | InvalidInstruction : String → MtlError
  | InvalidValue : String → MtlError
  | MissingMaterialName : MtlError
  | MissingValue : MtlMissingType → MtlError
deriving DecidableEq, Repr

/-- Rust `Debug` rendering of an `Option<&str>` (used in `get_vec`'s
missing-token error payload). -/
def dbgOptStr : Option String → String
  | none => "None"
  | some s => "Some(\"" ++ s ++ "\")"

/-- Rust `Debug` rendering of the triple of token options in `get_vec`. -/
def dbgTripleOpt (a b c : Option String) : String :=
  "(" ++ dbgOptStr a ++ ", " ++ dbgOptStr b ++ ", " ++ dbgOptStr c ++ ")"

/-- Rust `Debug` rendering of an `f32` value (integral values print a
trailing `.0`, e.g. `1.0`). -/
def dbgF32 (v : F32) : String :=
  renderF32 v ++ (if v.exp = 0 then ".0" else "")

/-- Rust `Debug` rendering of one `f32` parse result in `get_vec`. -/
def dbgResF32 : Option F32 → String
  | some v => "Ok(" ++ dbgF32 v ++ ")"
  | none => "Err(ParseFloatError \x7b kind: Invalid \x7d)"

/-- Rust `Debug` rendering of the triple of parse results in `get_vec`. -/
def dbgTripleRes (a b c : Option F32) : String :=
  "(" ++ dbgResF32 a ++ ", " ++ dbgResF32 b ++ ", " ++ dbgResF32 c ++ ")"

/-- `Parser::get_vec` (`src/mtl.rs` lines 157–171): take the next three
tokens (an absent token is an invalid-value error rendering the three
`Option`s), parse each as a float (a failure is an invalid-value error
rendering the three `Result`s), and return the triple with the remaining
tokens.  Tokens beyond the third are left unconsumed. -/
def Parser.get_vec (toks : List String) :
    Except MtlError ((F32 × F32 × F32) × List String) :=
  match toks with
  | x :: y :: z :: rest =>
    match parseF32 x, parseF32 y, parseF32 z with
    | some a, some b, some c => .ok ((a, b, c), rest)
    | ra, rb, rc => .error (.InvalidValue (dbgTripleRes ra rb rc))
  | _ => .error (.InvalidValue (dbgTripleOpt toks.head? (toks.drop 1).head? (toks.drop 2).head?))

/-- `Parser::get_i32` (`src/mtl.rs`). -/
def Parser.get_i32 (toks : List String) : Except MtlError (ℤ × List String) :=
  match toks with
  | [] => .error (.MissingValue .I32)
  | v :: rest =>
    match parseI32 v with
    | some z => .ok (z, rest)
    | none => .error (.InvalidValue v)

/-- `Parser::get_f32` (`src/mtl.rs`). -/
def Parser.get_f32 (toks : List String) : Except MtlError (F32 × List String) :=
  match toks with
  | [] => .error (.MissingValue .F32)
  | v :: rest =>
    match parseF32 v with
    | some q => .ok (q, rest)
    | none => .error (.InvalidValue v)

/-- `Parser::into_string` (`src/mtl.rs` lines 191–205): requires at least one
remaining token and folds the rest onto it with single-space separators. -/
def Parser.into_string (toks : List String) : Except MtlError String :=
  match toks with
  | [] => .error (.MissingValue .String)
  | v :: rest => .ok (rest.foldl (fun existing next => existing ++ " " ++ next) v)

/-- `Mtl` (`src/mtl.rs`): the ordered list of materials of a file. -/
structure Mtl where
  materials : List Material
deriving DecidableEq, Repr

/-- One iteration of the loop in `Mtl::load`: dispatch on the first token of
a line, threading the accumulated materials and the material being built.
A field directive with no active material is skipped without running its
value parser (the `if let Some(ref mut m)` guard in the Rust code). -/
def Mtl.step (mats : List Material) (cur : Option Material) (line : String) :
    Except MtlError (List Material × Option Material) :=
  match splitWhitespace line with
  | [] => .ok (mats, cur)
  | tok :: rest =>
    if tok = "newmtl" then
      let mats' := mats ++ cur.toList
      match rest with
      | [] => .error .MissingMaterialName
      | name :: _ => .ok (mats', some (Material.new name))
    else if tok = "Ka" then
      match cur with
      | some m => do let (v, _) ← Parser.get_vec rest; .ok (mats, some { m with ka := some v })
      | none => .ok (mats, none)
    else if tok = "Kd" then
      match cur with
      | some m => do let (v, _) ← Parser.get_vec rest; .ok (mats, some { m with kd := some v })
      | none => .ok (mats, none)
    else if tok = "Ks" then
      match cur with
      | some m => do let (v, _) ← Parser.get_vec rest; .ok (mats, some { m with ks := some v })
      | none => .ok (mats, none)
    else if tok = "Ke" then
      match cur with
      | some m => do let (v, _) ← Parser.get_vec rest; .ok (mats, some { m with ke := some v })
      | none => .ok (mats, none)
    else if tok = "Ns" then
      match cur with
      | some m => do let (v, _) ← Parser.get_f32 rest; .ok (mats, some { m with ns := some v })
      | none => .ok (mats, none)
    else if tok = "Ni" then
      match cur with
      | some m => do let (v, _) ← Parser.get_f32 rest; .ok (mats, some { m with ni := some v })
      | none => .ok (mats, none)
    else if tok = "Km" then
      match cur with
      | some m => do let (v, _) ← Parser.get_f32 rest; .ok (mats, some { m with km := some v })
      | none => .ok (mats, none)
    else if tok = "d" then
      match cur with
      | some m => do let (v, _) ← Parser.get_f32 rest; .ok (mats, some { m with d := some v })
      | none => .ok (mats, none)
    else if tok = "Tr" then
      match cur with
      | some m => do let (v, _) ← Parser.get_f32 rest; .ok (mats, some { m with tr := some v })
      | none => .ok (mats, none)
    else if tok = "Tf" then
      match cur with
      | some m => do let (v, _) ← Parser.get_vec rest; .ok (mats, some { m with tf := some v })
      | none => .ok (mats, none)
    else if tok = "illum" then
      match cur with
      | some m => do let (v, _) ← Parser.get_i32 rest; .ok (mats, some { m with illum := some v })
      | none => .ok (mats, none)
    else if tok = "map_Ka" then
      match cur with
      | some m => do let s ← Parser.into_string rest; .ok (mats, some { m with map_ka := some s })
      | none => .ok (mats, none)
    else if tok = "map_Kd" then
      match cur with
      | some m => do let s ← Parser.into_string rest; .ok (mats, some { m with map_kd := some s })
      | none => .ok (mats, none)
    else if tok = "map_Ks" then
      match cur with
      | some m => do let s ← Parser.into_string rest; .ok (mats, some { m with map_ks := some s })
      | none => .ok (mats, none)
    else if tok = "map_d" then
      match cur with
      | some m => do let s ← Parser.into_string rest; .ok (mats, some { m with map_d := some s })
      | none => .ok (mats, none)
    else if tok = "map_refl" then
      match cur with
      | some m => do let s ← Parser.into_string rest; .ok (mats, some { m with map_refl := some s })
      | none => .ok (mats, none)
    else if tok = "map_bump" ∨ tok = "map_Bump" ∨ tok = "bump" then
      match cur with
      | some m => do let s ← Parser.into_string rest; .ok (mats, some { m with map_bump := some s })
      | none => .ok (mats, none)
    else if tok.data.head? = some '#' then
      .ok (mats, cur)
    else
      .error (.InvalidInstruction tok)

/-- The loop of `Mtl::load` over the lines of the file; at end of stream a
material still being built is pushed onto the output. -/
def Mtl.loadLoop (mats : List Material) (cur : Option Material) :
    List String → Except MtlError Mtl
  | [] => .ok ⟨mats ++ cur.toList⟩
  | line :: rest => do
    let (mats', cur') ← Mtl.step mats cur line
    Mtl.loadLoop mats' cur' rest

/-- `Mtl::load` (`src/mtl.rs` lines 217–329), over the lines of the file. -/
def Mtl.load (lines : List String) : Except MtlError Mtl :=
  Mtl.loadLoop [] none lines

/-! ## The `.obj` geometry model — modelled from the spec

The geometry implementation file (`obj.rs`) is not among the sources; only
its integration tests are (`tests/cube.rs`, `tests/lines.rs`).  The loader
`loadGeometry` and the writer `writeGeometry` below are therefore modelled
from the specification (sections 4.4, 4.5, 4.6), with every observable the
repository's tests pin taken from those tests:
* the writer's exact line shapes and its fixed leading comment line
  (`test_export_line`);
* the rendering of references (`line_tuple_display`: `1` and `1/1`);
* the line-number payload of the normal-in-line error: the test
  `test_load_line_with_normal` expects `LineHasNormalIndex { line_number: 5 }`
  for an `l` directive on the sixth physical line of the file, so line
  numbers are the 0-based enumeration index of `BufRead::lines`, which
  overrides the spec's wording "1-based source line number";
* groups are flushed into the current object only when they carry at least
  one primitive, and objects only when they carry at least one group —
  otherwise writer output could not re-parse to an equal model, which the
  spec guarantees;
* `o`, like `g`, takes the joined remainder of the line as name (the test
  `test_export_line` writes the object name `line test`, which contains a
  space, and the spec guarantees writer output re-parses equally);
* a `v` line takes exactly three components (spec §9 leaves the optional
  4th homogeneous component to the implementer; this model rejects it);
* `usemtl`/`mtllib` are recorded as document-level metadata strings (spec
  §4.5 allows "the current object/group or the document").
-/

/-- A resolved line-vertex reference (`LineTuple` in the tests): a 0-based
position index and an optional 0-based texture index.  A line reference
structurally cannot carry a normal. -/
structure LineTuple where
  pos : ℕ
  tex : Option ℕ
deriving DecidableEq, Repr

/-- A resolved face-vertex reference (spec `VertexRef`): 0-based position
index with optional 0-based texture and normal indices. -/
structure VertexRef where
  pos : ℕ
  tex : Option ℕ
  norm : Option ℕ
deriving DecidableEq, Repr

/-- A named group (`Group` in the tests; renamed here because Mathlib already
defines `Group`): ordered polygonal faces and polylines. -/
structure ObjGroup where
  name : String
  faces : List (List VertexRef)
  lines : List (List LineTuple)
deriving DecidableEq, Repr

/-- `Group::new`: a fresh group with no primitives. -/
def ObjGroup.new (name : String) : ObjGroup := ⟨name, [], []⟩

/-- A named object: an ordered sequence of groups. -/
structure Object where
  name : String
  groups : List ObjGroup
deriving DecidableEq, Repr

/-- `Object::new`: a fresh object with no groups. -/
def Object.new (name : String) : Object := ⟨name, []⟩

/-- The in-memory geometry model (`ObjData`): the three global attribute
arrays, the object hierarchy, and the document-level material metadata. -/
structure ObjData where
  position : List (F32 × F32 × F32)
  texture : List (F32 × F32 × Option F32)
  normal : List (F32 × F32 × F32)
  objects : List Object
  mtlLibs : List String
  useMtls : List String
deriving DecidableEq, Repr

/-- Geometry parse errors (spec §7; `Io` wraps stream failures and is not
modelled). -/
inductive ObjError where
  | InvalidInstruction : String → ObjError
  | InvalidValue : String → ObjError
  | MissingValue : String → ObjError
  | LineHasNormalIndex : ℕ → ObjError
deriving DecidableEq, Repr

/-- Worker splitting a reference token at every `/`, keeping empty segments
(`1//2` has an empty texture field). -/
def splitSlashAux : List Char → List Char → List (List Char)
  | cur, [] => [cur.reverse]
  | cur, c :: cs =>
    if c = '/' then cur.reverse :: splitSlashAux [] cs
    else splitSlashAux (c :: cur) cs

/-- The `/`-separated fields of a reference token. -/
def splitSlash (s : String) : List String :=
  (splitSlashAux [] s.data).map String.mk

/-- Sequential traversal of a list by a fallible function, stopping at the
first error (the behaviour of resolving a primitive's references
left-to-right). -/
def mapExcept (f : α → Except ε β) : List α → Except ε (List β)
  | [] => .ok []
  | a :: as => do
    let b ← f a
    let bs ← mapExcept f as
    .ok (b :: bs)

/-- Spec §4.4 index resolution against the length of one attribute array as
accumulated so far: positive `v` resolves to `v - 1`, negative `v` to
`len + v`; `0` and out-of-range negatives are invalid values. -/
def resolveIdx (len : ℕ) (s : String) : Except ObjError ℕ :=
  match parseZ s with
  | none => .error (.InvalidValue s)
  | some v =>
    if 0 < v then .ok (v - 1).toNat
    else if v = 0 then .error (.InvalidValue s)
    else if 0 ≤ (len : ℤ) + v then .ok ((len : ℤ) + v).toNat
    else .error (.InvalidValue s)

/-- Resolve an optional (possibly empty) reference field. -/
def resolveOpt (len : ℕ) (s : String) : Except ObjError (Option ℕ) :=
  if s = "" then .ok none
  else do .ok (some (← resolveIdx len s))

/-- Parse one face reference token (`p`, `p/t`, `p//n`, `p/t/n`) against the
current array lengths `(positions, textures, normals)`. -/
def parseRefTok (lens : ℕ × ℕ × ℕ) (tok : String) : Except ObjError VertexRef :=
  match splitSlash tok with
  | [p] => do .ok ⟨← resolveIdx lens.1 p, none, none⟩
  | [p, t] => do .ok ⟨← resolveIdx lens.1 p, ← resolveOpt lens.2.1 t, none⟩
  | [p, t, n] => do
    .ok ⟨← resolveIdx lens.1 p, ← resolveOpt lens.2.1 t, ← resolveOpt lens.2.2 n⟩
  | _ => .error (.InvalidValue tok)

/-- Parse one line reference token: a non-empty normal field is fatal with
the 0-based index `idx` of the source line (checked before resolving the
token's own indices). -/
def parseLineTok (idx : ℕ) (lens : ℕ × ℕ × ℕ) (tok : String) :
    Except ObjError LineTuple :=
  match splitSlash tok with
  | [p] => do .ok ⟨← resolveIdx lens.1 p, none⟩
  | [p, t] => do .ok ⟨← resolveIdx lens.1 p, ← resolveOpt lens.2.1 t⟩
  | [p, t, n] =>
    if n ≠ "" then .error (.LineHasNormalIndex idx)
    else do .ok ⟨← resolveIdx lens.1 p, ← resolveOpt lens.2.1 t⟩
  | _ => .error (.InvalidValue tok)

/-- Loader state: the growing arrays, the flushed objects, and the object and
group currently being built. -/
structure GState where
  position : List (F32 × F32 × F32)
  texture : List (F32 × F32 × Option F32)
  normal : List (F32 × F32 × F32)
  objects : List Object
  curObjName : String
  doneGroups : List ObjGroup
  curGroup : ObjGroup
  mtlLibs : List String
  useMtls : List String
deriving DecidableEq, Repr

/-- The attribute-array lengths of the state (the resolution context of
spec §4.4: lengths as accumulated at the referencing line). -/
def GState.lens (st : GState) : ℕ × ℕ × ℕ :=
  (st.position.length, st.texture.length, st.normal.length)

/-- Does the current group carry no primitive? -/
def ObjGroup.noPrims (g : ObjGroup) : Bool :=
  g.faces.isEmpty && g.lines.isEmpty

/-- Flush the current group into the pending group list if it carries at
least one primitive. -/
def GState.flushGroups (st : GState) : List ObjGroup :=
  if st.curGroup.noPrims then st.doneGroups else st.doneGroups ++ [st.curGroup]

/-- Flush the current group and then the current object; the object is kept
only when it ends up with at least one group. -/
def GState.flushObjects (st : GState) : List Object :=
  let gs := st.flushGroups
  if gs.isEmpty then st.objects else st.objects ++ [⟨st.curObjName, gs⟩]

/-- End of stream: assemble the document from the state. -/
def GState.finish (st : GState) : ObjData :=
  ⟨st.position, st.texture, st.normal, st.flushObjects, st.mtlLibs, st.useMtls⟩

/-- Parse one float component of a `v`/`vt`/`vn` line. -/
def parseComp (s : String) : Except ObjError F32 :=
  match parseF32 s with
  | some v => .ok v
  | none => .error (.InvalidValue s)

/-- Modelled from the spec: one iteration of the geometry dispatcher (spec
§4.5) at 0-based source line index `idx`.  See the section comment for the
choices the spec leaves open and how the tests pin them. -/
def objStep (idx : ℕ) (st : GState) (line : String) : Except ObjError GState :=
  match splitWhitespace line with
  | [] => .ok st
  | tok :: rest =>
    if tok = "v" then
      match rest with
      | [a, b, c] => do
        let x ← parseComp a; let y ← parseComp b; let z ← parseComp c
        .ok { st with position := st.position ++ [(x, y, z)] }
      | _ => .error (.InvalidValue (joinSpace rest))
    else if tok = "vt" then
      match rest with
      | [a, b] => do
        let x ← parseComp a; let y ← parseComp b
        .ok { st with texture := st.texture ++ [(x, y, none)] }
      | [a, b, c] => do
        let x ← parseComp a; let y ← parseComp b; let z ← parseComp c
        .ok { st with texture := st.texture ++ [(x, y, some z)] }
      | _ => .error (.InvalidValue (joinSpace rest))
    else if tok = "vn" then
      match rest with
      | [a, b, c] => do
        let x ← parseComp a; let y ← parseComp b; let z ← parseComp c
        .ok { st with normal := st.normal ++ [(x, y, z)] }
      | _ => .error (.InvalidValue (joinSpace rest))
    else if tok = "o" then
      .ok { st with objects := st.flushObjects, curObjName := joinSpace rest,
                    doneGroups := [], curGroup := ObjGroup.new "default" }
    else if tok = "g" then
      .ok { st with doneGroups := st.flushGroups, curGroup := ObjGroup.new (joinSpace rest) }
    else if tok = "f" then do
      let refs ← mapExcept (parseRefTok st.lens) rest
      if 3 ≤ refs.length then
        .ok { st with curGroup := { st.curGroup with faces := st.curGroup.faces ++ [refs] } }
      else .error (.InvalidValue (joinSpace rest))
    else if tok = "l" then do
      let tups ← mapExcept (parseLineTok idx st.lens) rest
      if 2 ≤ tups.length then
        .ok { st with curGroup := { st.curGroup with lines := st.curGroup.lines ++ [tups] } }
      else .error (.InvalidValue (joinSpace rest))
    else if tok = "usemtl" then
      .ok { st with useMtls := st.useMtls ++ [joinSpace rest] }
    else if tok = "mtllib" then
      .ok { st with mtlLibs := st.mtlLibs ++ [joinSpace rest] }
    else if tok.data.head? = some '#' then
      .ok st
    else
      .error (.InvalidInstruction tok)

/-- The loader's forward pass from state `st` at line index `idx`; end of
stream flushes the pending group and object. -/
def loadLoop (idx : ℕ) (st : GState) : List String → Except ObjError ObjData
  | [] => .ok st.finish
  | line :: rest => do loadLoop (idx + 1) (← objStep idx st line) rest

/-- The initial loader state: implicit object and group named `default`. -/
def initGState : GState :=
  ⟨[], [], [], [], "default", [], ObjGroup.new "default", [], []⟩

/-- Modelled from the spec: `loadGeometry` (the `ObjData::load_buf` of the
missing `obj.rs`), over the lines of the file. -/
def loadGeometry (lines : List String) : Except ObjError ObjData :=
  loadLoop 0 initGState lines

/-- Render a line reference, as pinned by the `line_tuple_display` test:
`1` for position 0 and no texture, `1/1` for position 0 and texture 0. -/
def renderLineTuple (t : LineTuple) : String :=
  renderNat (t.pos + 1) ++
    (match t.tex with
     | none => ""
     | some x => "/" ++ renderNat (x + 1))

/-- Render a face reference: `p`, `p/t`, `p//n` or `p/t/n`, 1-based.  The
empty texture slot of `p//n` is required for writer output to re-parse to an
equal model (spec §2/§8), which fixes the rendering the spec's §4.6 sentence
leaves ambiguous. -/
def renderRef (r : VertexRef) : String :=
  renderNat (r.pos + 1) ++
    (match r.tex, r.norm with
     | none, none => ""
     | some t, none => "/" ++ renderNat (t + 1)
     | none, some n => "//" ++ renderNat (n + 1)
     | some t, some n => "/" ++ renderNat (t + 1) ++ "/" ++ renderNat (n + 1))

/-- The writer's fixed leading comment line (pinned by `test_export_line`). -/
def objHeader : String :=
  "# Generated by the obj Rust library (https://crates.io/crates/obj)."

/-- Render one `v` line. -/
def renderVLine (p : F32 × F32 × F32) : String :=
  joinSpace ["v", renderF32 p.1, renderF32 p.2.1, renderF32 p.2.2]

/-- Render one `l` line. -/
def renderLLine (ts : List LineTuple) : String :=
  joinSpace ("l" :: ts.map renderLineTuple)

/-- Render one `f` line. -/
def renderFLine (rs : List VertexRef) : String :=
  joinSpace ("f" :: rs.map renderRef)

/-- The lines of one group block: `g <name>`, then the `l` lines, then the
`f` lines (spec §4.6). -/
def groupBlock (g : ObjGroup) : List String :=
  ("g " ++ g.name) :: (g.lines.map renderLLine ++ g.faces.map renderFLine)

/-- The lines of one object block: `o <name>` then its group blocks. -/
def objectBlock (o : Object) : List String :=
  ("o " ++ o.name) :: o.groups.flatMap groupBlock

/-- Modelled from the spec: `writeGeometry` (spec §4.6), producing the lines
the canonical writer emits: the fixed comment, one `v` line per position,
then the object blocks, never reordering anything. -/
def writeGeometry (d : ObjData) : List String :=
  objHeader :: (d.position.map renderVLine ++ d.objects.flatMap objectBlock)

/-! ## Predicates used by the statements below -/

/-- Is an `Except` result a success? -/
def isOkE : Except ε α → Bool
  | .ok _ => true
  | .error _ => false

/-- Is an `Except` result an `InvalidValue` material error? -/
def isInvalidValueErr : Except MtlError α → Bool
  | .error (.InvalidValue _) => true
  | _ => false

/-- A non-empty string with no whitespace (the shape of every token produced
by `splitWhitespace`). -/
def isTokenStr (t : String) : Bool :=
  !t.data.isEmpty && t.data.all (fun c => !isWsCh c)

/-- A name that re-tokenises to itself: joining its tokens with single spaces
gives the name back.  Every name the loader builds has this shape. -/
def normName (s : String) : Bool :=
  joinSpace (splitWhitespace s) == s

/-- A string of `n` spaces. -/
def spacesStr (n : ℕ) : String :=
  String.mk (List.replicate n ' ')

/-- The material field directives of the grammar as implemented by
`Mtl::load` (every recognised first token except `newmtl` and comments). -/
def mtlFieldDirectives : List String :=
  ["Ka", "Kd", "Ks", "Ke", "Ns", "Ni", "Km", "d", "Tr", "Tf", "illum",
   "map_Ka", "map_Kd", "map_Ks", "map_d", "map_refl",
   "map_bump", "map_Bump", "bump"]

/-- The name tokens of the `newmtl` lines of a file, in order. -/
def newmtlNames (lines : List String) : List String :=
  lines.filterMap (fun line =>
    match splitWhitespace line with
    | tok :: name :: _ => if tok = "newmtl" then some name else none
    | _ => none)

/-- `m'` agrees with `m` on every `Material` field except possibly the one
field the directive `tok` sets (stated by record update: overwriting that
one field of `m` with its value in `m'` yields `m'`). -/
def matSameExcept (tok : String) (m m' : Material) : Prop :=
  if tok = "Ka" then m' = { m with ka := m'.ka }
  else if tok = "Kd" then m' = { m with kd := m'.kd }
  else if tok = "Ks" then m' = { m with ks := m'.ks }
  else if tok = "Ke" then m' = { m with ke := m'.ke }
  else if tok = "Ns" then m' = { m with ns := m'.ns }
  else if tok = "Ni" then m' = { m with ni := m'.ni }
  else if tok = "Km" then m' = { m with km := m'.km }
  else if tok = "d" then m' = { m with d := m'.d }
  else if tok = "Tr" then m' = { m with tr := m'.tr }
  else if tok = "Tf" then m' = { m with tf := m'.tf }
  else if tok = "illum" then m' = { m with illum := m'.illum }
  else if tok = "map_Ka" then m' = { m with map_ka := m'.map_ka }
  else if tok = "map_Kd" then m' = { m with map_kd := m'.map_kd }
  else if tok = "map_Ks" then m' = { m with map_ks := m'.map_ks }
  else if tok = "map_d" then m' = { m with map_d := m'.map_d }
  else if tok = "map_refl" then m' = { m with map_refl := m'.map_refl }
  else if tok = "map_bump" ∨ tok = "map_Bump" ∨ tok = "bump" then
    m' = { m with map_bump := m'.map_bump }
  else False

/-- Does a reference token carry a (non-empty) normal field? -/
def tokHasNormal (tok : String) : Bool :=
  match splitSlash tok with
  | [_, _, n] => n != ""
  | _ => false

/-- A line whose first token is one of the writer-supported directives
(`v`, `o`, `g`, `f`, `l`), a comment, or nothing. -/
def writerLineB (line : String) : Bool :=
  match splitWhitespace line with
  | [] => true
  | tok :: _ =>
    tok == "v" || tok == "o" || tok == "g" || tok == "f" || tok == "l" ||
      tok.data.head? == some '#'

/-- A geometry text confined to the writer's supported directive subset. -/
def writerSubsetB (lines : List String) : Bool :=
  lines.all writerLineB

/-- The loader's pass without the end-of-stream flush: thread `objStep` over
the lines, returning the final state. -/
def stepList (idx : ℕ) (st : GState) : List String → Except ObjError GState
  | [] => .ok st
  | line :: rest => do stepList (idx + 1) (← objStep idx st line) rest

/-- Well-formed flushed group: a normalised name, at least one primitive,
faces with ≥ 3 references and lines with ≥ 2. -/
def wfGroup (g : ObjGroup) : Prop :=
  normName g.name = true ∧ g.noPrims = false ∧
    (∀ f ∈ g.faces, 3 ≤ f.length) ∧ (∀ l ∈ g.lines, 2 ≤ l.length)

/-- Well-formed flushed object: a normalised name and at least one
well-formed group. -/
def wfObject (o : Object) : Prop :=
  normName o.name = true ∧ o.groups ≠ [] ∧ ∀ g ∈ o.groups, wfGroup g

/-- The shape every result of a successful `loadGeometry` run on the
writer's directive subset has; exactly what reloading the writer's output
needs. -/
def wfSubsetData (d : ObjData) : Prop :=
  d.texture = [] ∧ d.normal = [] ∧ d.mtlLibs = [] ∧ d.useMtls = [] ∧
    ∀ o ∈ d.objects, wfObject o

/-- Loader-state counterpart of `wfSubsetData` while the pass is running:
the group and object under construction are also well shaped (the current
group may still be empty of primitives). -/
def wfState (st : GState) : Prop :=
  st.texture = [] ∧ st.normal = [] ∧ st.mtlLibs = [] ∧ st.useMtls = [] ∧
    normName st.curObjName = true ∧ normName st.curGroup.name = true ∧
    (∀ f ∈ st.curGroup.faces, 3 ≤ f.length) ∧
    (∀ l ∈ st.curGroup.lines, 2 ≤ l.length) ∧
    (∀ g ∈ st.doneGroups, wfGroup g) ∧ (∀ o ∈ st.objects, wfObject o)

/-! # Theorems -/

/-! ## Digit strings and numerals -/

theorem digitVal_digitChar {d : ℕ} (h : d < 10) : digitVal (digitChar d) = d := by
  interval_cases d <;> decide

theorem isDigitCh_digitChar {d : ℕ} (h : d < 10) : isDigitCh (digitChar d) = true := by
  interval_cases d <;> decide

theorem natVal_append_singleton (cs : List Char) (c : Char) :
    natVal (cs ++ [c]) = natVal cs * 10 + digitVal c := by
  simp [natVal, List.foldl_append]

theorem pow10_pos (k : ℕ) : 0 < pow10 k := by
  induction k with
  | zero => decide
  | succ k ih => simpa [pow10] using by omega

theorem natDigits_val : ∀ fuel n, n ≤ fuel → natVal (natDigits fuel n) = n := by
  intro fuel
  induction fuel with
  | zero =>
    intro n h
    interval_cases n
    decide
  | succ fuel ih =>
    intro n h
    match n with
    | 0 => rfl
    | m + 1 =>
      have hd : (m + 1) / 10 < m + 1 := Nat.div_lt_self (by omega) (by omega)
      have h1 : (m + 1) / 10 ≤ fuel := by omega
      have he : natDigits (fuel + 1) (m + 1) =
          natDigits fuel ((m + 1) / 10) ++ [digitChar ((m + 1) % 10)] := rfl
      rw [he, natVal_append_singleton, ih _ h1,
        digitVal_digitChar (Nat.mod_lt _ (by omega))]
      omega

theorem natDigits_all_digits : ∀ fuel n c, c ∈ natDigits fuel n → isDigitCh c = true := by
  intro fuel
  induction fuel with
  | zero => intro n c hc; simp [natDigits] at hc
  | succ fuel ih =>
    intro n c hc
    match n with
    | 0 => simp [natDigits] at hc
    | m + 1 =>
      have he : natDigits (fuel + 1) (m + 1) =
          natDigits fuel ((m + 1) / 10) ++ [digitChar ((m + 1) % 10)] := rfl
      rw [he] at hc
      rcases List.mem_append.1 hc with h | h
      · exact ih _ _ h
      · simp at h
        subst h
        exact isDigitCh_digitChar (Nat.mod_lt _ (by omega))

theorem natDigits_ne_nil : ∀ fuel n, n ≠ 0 → n ≤ fuel → natDigits fuel n ≠ [] := by
  intro fuel n h0 h
  match fuel, n with
  | 0, n => omega
  | fuel + 1, 0 => exact absurd rfl h0
  | fuel + 1, m + 1 =>
    have he : natDigits (fuel + 1) (m + 1) =
        natDigits fuel ((m + 1) / 10) ++ [digitChar ((m + 1) % 10)] := rfl
    rw [he]
    simp

theorem natDigits_length : ∀ fuel n k, n ≤ fuel → n < pow10 k →
    (natDigits fuel n).length ≤ k := by
  intro fuel
  induction fuel with
  | zero =>
    intro n k h h2
    interval_cases n
    simp [natDigits]
  | succ fuel ih =>
    intro n k h h2
    match n with
    | 0 => simp [natDigits]
    | m + 1 =>
      match k with
      | 0 =>
        exfalso
        simp only [pow10] at h2
        omega
      | j + 1 =>
        have he : natDigits (fuel + 1) (m + 1) =
            natDigits fuel ((m + 1) / 10) ++ [digitChar ((m + 1) % 10)] := rfl
        rw [he]
        have hd : (m + 1) / 10 < m + 1 := Nat.div_lt_self (by omega) (by omega)
        have hlt : (m + 1) / 10 < pow10 j := by
          apply Nat.div_lt_of_lt_mul
          simpa [pow10, Nat.mul_comm] using h2
        have := ih ((m + 1) / 10) j (by omega) hlt
        simp only [List.length_append, List.length_cons, List.length_nil]
        omega

theorem renderNat_data (n : ℕ) :
    (renderNat n).data = if n = 0 then ['0'] else natDigits n n := by
  unfold renderNat
  split <;> rfl

theorem renderNat_all_digits (n : ℕ) :
    ∀ c ∈ (renderNat n).data, isDigitCh c = true := by
  intro c hc
  rw [renderNat_data] at hc
  split at hc
  · simp at hc; subst hc; decide
  · exact natDigits_all_digits _ _ _ hc

theorem renderNat_ne_nil (n : ℕ) : (renderNat n).data ≠ [] := by
  rw [renderNat_data]
  split
  · simp
  · exact natDigits_ne_nil _ _ (by assumption) le_rfl

theorem natVal_renderNat (n : ℕ) : natVal (renderNat n).data = n := by
  rw [renderNat_data]
  split
  · subst n; decide
  · exact natDigits_val _ _ le_rfl

theorem parseNatDigits_renderNat (n : ℕ) :
    parseNatDigits (renderNat n).data = some n := by
  unfold parseNatDigits
  rw [if_neg, if_pos, natVal_renderNat]
  · rw [List.all_eq_true]
    exact renderNat_all_digits n
  · simp only [List.isEmpty_iff]
    exact renderNat_ne_nil n

theorem stripSign_digit {c : Char} {cs : List Char} (h : isDigitCh c = true) :
    stripSign (c :: cs) = (false, c :: cs) := by
  have h1 : c ≠ '-' := by rintro rfl; exact absurd h (by decide)
  have h2 : c ≠ '+' := by rintro rfl; exact absurd h (by decide)
  simp [stripSign, h1, h2]

theorem stripSign_renderNat (n : ℕ) :
    stripSign (renderNat n).data = (false, (renderNat n).data) := by
  cases hd : (renderNat n).data with
  | nil => exact absurd hd (renderNat_ne_nil n)
  | cons c cs =>
    have hc : isDigitCh c = true := by
      apply renderNat_all_digits n c
      rw [hd]
      exact List.mem_cons_self _ _
    exact stripSign_digit hc

theorem parseZ_renderZ (z : ℤ) : parseZ (renderZ z) = some z := by
  by_cases hz : z < 0
  · rw [renderZ, if_pos hz]
    unfold parseZ
    have hd : ("-" ++ renderNat z.natAbs).data = '-' :: (renderNat z.natAbs).data := by
      simp
    rw [hd]
    have hs : stripSign ('-' :: (renderNat z.natAbs).data) =
        (true, (renderNat z.natAbs).data) := by simp [stripSign]
    rw [hs]
    simp only [parseNatDigits_renderNat]
    simp [abs_of_neg hz]
  · rw [renderZ, if_neg hz]
    unfold parseZ
    rw [stripSign_renderNat]
    simp only [parseNatDigits_renderNat]
    simp [abs_of_nonneg (not_lt.1 hz)]

/-! ## Round trip of the decimal float rendering -/

theorem takeWhile_of_all {p : Char → Bool} (xs : List Char)
    (h : ∀ c ∈ xs, p c = true) :
    xs.takeWhile p = xs ∧ xs.dropWhile p = [] := by
  induction xs with
  | nil => simp
  | cons c cs ih =>
    have hc := h c (List.mem_cons_self _ _)
    have ihh := ih (fun d hd => h d (List.mem_cons_of_mem _ hd))
    simp [List.takeWhile_cons, List.dropWhile_cons, hc, ihh.1, ihh.2]

theorem takeWhile_append_stop {p : Char → Bool} (xs : List Char) (y : Char)
    (ys : List Char) (hall : ∀ c ∈ xs, p c = true) (hy : p y = false) :
    (xs ++ y :: ys).takeWhile p = xs ∧ (xs ++ y :: ys).dropWhile p = y :: ys := by
  induction xs with
  | nil => simp [List.takeWhile_cons, List.dropWhile_cons, hy]
  | cons c cs ih =>
    have hc := hall c (List.mem_cons_self _ _)
    have ihh := ih (fun d hd => hall d (List.mem_cons_of_mem _ hd))
    simp [List.takeWhile_cons, List.dropWhile_cons, hc, ihh.1, ihh.2]

theorem natVal_cons_zero (l : List Char) : natVal ('0' :: l) = natVal l := by
  show List.foldl _ (0 * 10 + digitVal '0') l = List.foldl _ 0 l
  have h : 0 * 10 + digitVal '0' = 0 := by decide
  rw [h]

theorem natVal_replicate_zero (j : ℕ) (ds : List Char) :
    natVal (List.replicate j '0' ++ ds) = natVal ds := by
  induction j with
  | zero => simp
  | succ j ih => simpa [List.replicate_succ, natVal_cons_zero] using ih

theorem padDigits_length (k n : ℕ) (h : n < pow10 k) :
    (padDigits k n).length = k := by
  have hlen : (natDigits n n).length ≤ k := natDigits_length n n k le_rfl h
  unfold padDigits
  simp only [List.length_append, List.length_replicate]
  omega

theorem padDigits_all_digits (k n : ℕ) :
    ∀ c ∈ padDigits k n, isDigitCh c = true := by
  intro c hc
  unfold padDigits at hc
  rcases List.mem_append.1 hc with h | h
  · rw [List.eq_of_mem_replicate h]; decide
  · exact natDigits_all_digits _ _ _ h

theorem natVal_padDigits (k n : ℕ) : natVal (padDigits k n) = n := by
  unfold padDigits
  simp only [natVal_replicate_zero]
  exact natDigits_val n n le_rfl

theorem isDigitCh_dot : isDigitCh '.' = false := by decide

theorem mkF32_true_zero (a : ℕ) : mkF32 true a 0 0 = ⟨-(a : ℤ), 0⟩ := by
  unfold mkF32
  norm_num [pow10]

theorem mkF32_false_zero (a : ℕ) : mkF32 false a 0 0 = ⟨(a : ℤ), 0⟩ := by
  unfold mkF32
  norm_num [pow10]

theorem mkF32_true_pos (a e : ℕ) (he : e ≠ 0) : mkF32 true a e 0 = ⟨-(a : ℤ), e⟩ := by
  unfold mkF32
  have h1 : ¬((e : ℤ) - 0 ≤ 0) := by omega
  simp only [h1, if_false]
  simp

theorem mkF32_false_pos (a e : ℕ) (he : e ≠ 0) : mkF32 false a e 0 = ⟨(a : ℤ), e⟩ := by
  unfold mkF32
  have h1 : ¬((e : ℤ) - 0 ≤ 0) := by omega
  simp only [h1, if_false]
  simp

theorem parseF32_renderF32 (v : F32) : parseF32 (renderF32 v) = some v := by
  obtain ⟨man, e⟩ := v
  have hmod : man.natAbs % pow10 e < pow10 e := Nat.mod_lt _ (pow10_pos e)
  by_cases he : e = 0
  · subst he
    by_cases hneg : man < 0
    · have hdata : (renderF32 ⟨man, 0⟩).data = '-' :: (renderNat man.natAbs).data := by
        simp [renderF32, if_pos hneg]
      unfold parseF32
      rw [hdata]
      have hs : stripSign ('-' :: (renderNat man.natAbs).data) =
          (true, (renderNat man.natAbs).data) := by simp [stripSign]
      rw [hs]
      have htk := takeWhile_of_all (p := isDigitCh) (renderNat man.natAbs).data
        (renderNat_all_digits _)
      simp only [htk.1, htk.2]
      have hne : ((renderNat man.natAbs).data).isEmpty = false := by
        simp [List.isEmpty_iff]
        exact renderNat_ne_nil _
      simp only [hne, Bool.false_eq_true, if_false, natVal_renderNat, mkF32_true_zero,
        Option.some.injEq, F32.mk.injEq]
      have habs : (man.natAbs : ℤ) = -man := Int.ofNat_natAbs_of_nonpos (le_of_lt hneg)
      simp [habs]
    · have hdata : (renderF32 ⟨man, 0⟩).data = (renderNat man.natAbs).data := by
        simp [renderF32, if_neg hneg]
      unfold parseF32
      rw [hdata, stripSign_renderNat]
      have htk := takeWhile_of_all (p := isDigitCh) (renderNat man.natAbs).data
        (renderNat_all_digits _)
      simp only [htk.1, htk.2]
      have hne : ((renderNat man.natAbs).data).isEmpty = false := by
        simp [List.isEmpty_iff]
        exact renderNat_ne_nil _
      simp only [hne, Bool.false_eq_true, if_false, natVal_renderNat, mkF32_false_zero,
        Option.some.injEq, F32.mk.injEq]
      have habs : (man.natAbs : ℤ) = man := Int.natAbs_of_nonneg (not_lt.1 hneg)
      simp [habs]
  · have hcore : (if e = 0 then renderNat man.natAbs else
        renderNat (man.natAbs / pow10 e) ++ "." ++
          String.mk (padDigits e (man.natAbs % pow10 e))).data =
        (renderNat (man.natAbs / pow10 e)).data ++
          '.' :: padDigits e (man.natAbs % pow10 e) := by
      rw [if_neg he]
      simp
    by_cases hneg : man < 0
    · have hdata : (renderF32 ⟨man, e⟩).data =
          '-' :: ((renderNat (man.natAbs / pow10 e)).data ++
            '.' :: padDigits e (man.natAbs % pow10 e)) := by
        simp only [renderF32, if_pos hneg]
        rw [String.data_append, hcore]
        simp
      unfold parseF32
      rw [hdata]
      have hs : stripSign ('-' :: ((renderNat (man.natAbs / pow10 e)).data ++
          '.' :: padDigits e (man.natAbs % pow10 e))) =
          (true, (renderNat (man.natAbs / pow10 e)).data ++
            '.' :: padDigits e (man.natAbs % pow10 e)) := by simp [stripSign]
      rw [hs]
      have htk := takeWhile_append_stop (p := isDigitCh)
        (renderNat (man.natAbs / pow10 e)).data '.'
        (padDigits e (man.natAbs % pow10 e)) (renderNat_all_digits _) isDigitCh_dot
      simp only [htk.1, htk.2]
      have htk2 := takeWhile_of_all (p := isDigitCh)
        (padDigits e (man.natAbs % pow10 e)) (padDigits_all_digits _ _)
      simp only [htk2.1, htk2.2]
      have hne : ((renderNat (man.natAbs / pow10 e)).data).isEmpty = false := by
        simp [List.isEmpty_iff]
        exact renderNat_ne_nil _
      simp only [hne, Bool.false_eq_true, false_and, if_false, natVal_renderNat,
        natVal_padDigits, padDigits_length _ _ hmod]
      have hman0 : man.natAbs / pow10 e * pow10 e + man.natAbs % pow10 e = man.natAbs := by
        rw [Nat.mul_comm]
        exact Nat.div_add_mod _ _
      rw [hman0, mkF32_true_pos _ _ he]
      simp only [Option.some.injEq, F32.mk.injEq]
      have habs : (man.natAbs : ℤ) = -man := Int.ofNat_natAbs_of_nonpos (le_of_lt hneg)
      simp [habs]
    · have hdata : (renderF32 ⟨man, e⟩).data =
          (renderNat (man.natAbs / pow10 e)).data ++
            '.' :: padDigits e (man.natAbs % pow10 e) := by
        simp only [renderF32, if_neg hneg]
        exact hcore
      unfold parseF32
      rw [hdata]
      have hhead : ∃ c cs, (renderNat (man.natAbs / pow10 e)).data = c :: cs := by
        cases hd : (renderNat (man.natAbs / pow10 e)).data with
        | nil => exact absurd hd (renderNat_ne_nil _)
        | cons c cs => exact ⟨c, cs, rfl⟩
      obtain ⟨c, cs, hcons⟩ := hhead
      have hcdig : isDigitCh c = true := by
        apply renderNat_all_digits
        rw [hcons]
        exact List.mem_cons_self _ _
      have hs : stripSign ((renderNat (man.natAbs / pow10 e)).data ++
          '.' :: padDigits e (man.natAbs % pow10 e)) =
          (false, (renderNat (man.natAbs / pow10 e)).data ++
            '.' :: padDigits e (man.natAbs % pow10 e)) := by
        rw [hcons]
        exact stripSign_digit hcdig
      rw [hs]
      have htk := takeWhile_append_stop (p := isDigitCh)
        (renderNat (man.natAbs / pow10 e)).data '.'
        (padDigits e (man.natAbs % pow10 e)) (renderNat_all_digits _) isDigitCh_dot
      simp only [htk.1, htk.2]
      have htk2 := takeWhile_of_all (p := isDigitCh)
        (padDigits e (man.natAbs % pow10 e)) (padDigits_all_digits _ _)
      simp only [htk2.1, htk2.2]
      have hne : ((renderNat (man.natAbs / pow10 e)).data).isEmpty = false := by
        simp [List.isEmpty_iff]
        exact renderNat_ne_nil _
      simp only [hne, Bool.false_eq_true, false_and, if_false, natVal_renderNat,
        natVal_padDigits, padDigits_length _ _ hmod]
      have hman0 : man.natAbs / pow10 e * pow10 e + man.natAbs % pow10 e = man.natAbs := by
        rw [Nat.mul_comm]
        exact Nat.div_add_mod _ _
      rw [hman0, mkF32_false_pos _ _ he]
      simp only [Option.some.injEq, F32.mk.injEq]
      have habs : (man.natAbs : ℤ) = man := Int.natAbs_of_nonneg (not_lt.1 hneg)
      simp [habs]

/-! ## Tokeniser lemmas -/

theorem not_ws_of_digit {c : Char} (h : isDigitCh c = true) : isWsCh c = false := by
  by_contra hw
  have hw' : isWsCh c = true := by
    cases hb : isWsCh c
    · exact absurd hb hw
    · rfl
  simp only [isWsCh, Bool.or_eq_true, decide_eq_true_eq] at hw'
  rcases hw' with ((h1 | h1) | h1) | h1 <;> subst h1 <;> exact absurd h (by decide)

theorem not_slash_of_digit {c : Char} (h : isDigitCh c = true) : c ≠ '/' := by
  rintro rfl
  exact absurd h (by decide)

theorem splitWsAux_append_space (xs ys : List Char) :
    ∀ cur, splitWsAux cur (xs ++ ' ' :: ys) = splitWsAux cur xs ++ splitWsAux [] ys := by
  induction xs with
  | nil =>
    intro cur
    by_cases hc : cur.isEmpty <;>
      simp [splitWsAux, hc, show isWsCh ' ' = true from by decide]
  | cons c cs ih =>
    intro cur
    by_cases hw : isWsCh c
    · by_cases hc : cur.isEmpty <;> simp [splitWsAux, hw, hc, ih]
    · simp only [List.cons_append]
      simp [splitWsAux, hw, ih]

theorem splitWsAux_no_ws (cs : List Char) :
    ∀ cur, (∀ c ∈ cs, isWsCh c = false) →
      splitWsAux cur cs = if cur = [] ∧ cs = [] then [] else [cur.reverse ++ cs] := by
  induction cs with
  | nil =>
    intro cur h
    cases cur <;> simp [splitWsAux]
  | cons c cs ih =>
    intro cur h
    have hc : isWsCh c = false := h c (List.mem_cons_self _ _)
    have ihh := ih (c :: cur) (fun d hd => h d (List.mem_cons_of_mem _ hd))
    simp only [splitWsAux, hc, Bool.false_eq_true, if_false, ihh]
    simp [List.append_assoc]

theorem splitWhitespace_token (t : String) (h : isTokenStr t = true) :
    splitWhitespace t = [t] := by
  simp only [isTokenStr, Bool.and_eq_true, Bool.not_eq_true', List.all_eq_true] at h
  unfold splitWhitespace
  rw [splitWsAux_no_ws t.data [] h.2]
  have hne : ¬(t.data = []) := by
    intro hd
    rw [List.isEmpty_iff.2 hd] at h
    exact absurd h.1 (by decide)
  simp [hne]

theorem splitWhitespace_token_space (t s : String) (h : isTokenStr t = true) :
    splitWhitespace (t ++ " " ++ s) = t :: splitWhitespace s := by
  simp only [isTokenStr, Bool.and_eq_true, Bool.not_eq_true', List.all_eq_true] at h
  unfold splitWhitespace
  have hd : (t ++ " " ++ s).data = t.data ++ ' ' :: s.data := by simp
  rw [hd, splitWsAux_append_space, splitWsAux_no_ws t.data [] h.2]
  have hne : ¬(t.data = []) := by
    intro hd2
    rw [List.isEmpty_iff.2 hd2] at h
    exact absurd h.1 (by decide)
  simp [hne]

theorem splitWhitespace_joinSpace (ts : List String) (h : ∀ t ∈ ts, isTokenStr t = true) :
    splitWhitespace (joinSpace ts) = ts := by
  induction ts with
  | nil => rfl
  | cons t ts ih =>
    cases ts with
    | nil => exact splitWhitespace_token t (h t (List.mem_cons_self _ _))
    | cons u us =>
      have he : joinSpace (t :: u :: us) = t ++ " " ++ joinSpace (u :: us) := rfl
      rw [he, splitWhitespace_token_space t _ (h t (List.mem_cons_self _ _)),
        ih (fun x hx => h x (List.mem_cons_of_mem _ hx))]

theorem normName_joinSpace (ts : List String) (h : ∀ t ∈ ts, isTokenStr t = true) :
    normName (joinSpace ts) = true := by
  unfold normName
  rw [splitWhitespace_joinSpace ts h]
  simp

theorem splitWsAux_tokens (cs : List Char) :
    ∀ cur, (∀ c ∈ cur, isWsCh c = false) → ∀ l ∈ splitWsAux cur cs,
      l ≠ [] ∧ ∀ c ∈ l, isWsCh c = false := by
  induction cs with
  | nil =>
    intro cur hcur l hl
    by_cases hc : cur.isEmpty
    · simp [splitWsAux, hc] at hl
    · simp [splitWsAux, hc] at hl
      subst hl
      constructor
      · simp [List.isEmpty_iff] at hc
        simpa using hc
      · intro c hcmem
        exact hcur c (List.mem_reverse.1 hcmem)
  | cons c cs ih =>
    intro cur hcur l hl
    by_cases hw : isWsCh c
    · by_cases hc : cur.isEmpty
      · simp only [splitWsAux, hw, hc, if_true] at hl
        exact ih [] (by simp) l hl
      · simp only [splitWsAux, hw, hc, Bool.false_eq_true, if_true, if_false,
          List.mem_cons] at hl
        rcases hl with hl | hl
        · subst hl
          constructor
          · simp [List.isEmpty_iff] at hc
            simpa using hc
          · intro d hd
            exact hcur d (List.mem_reverse.1 hd)
        · exact ih [] (by simp) l hl
    · simp only [splitWsAux, hw, Bool.false_eq_true, if_false] at hl
      refine ih (c :: cur) ?_ l hl
      intro d hd
      rcases List.mem_cons.1 hd with hd | hd
      · subst hd
        simpa using hw
      · exact hcur d hd

theorem splitWhitespace_tokens (s : String) :
    ∀ t ∈ splitWhitespace s, isTokenStr t = true := by
  intro t ht
  unfold splitWhitespace at ht
  rcases List.mem_map.1 ht with ⟨l, hl, rfl⟩
  have := splitWsAux_tokens s.data [] (by simp) l hl
  simp only [isTokenStr, Bool.and_eq_true, Bool.not_eq_true', List.all_eq_true]
  constructor
  · simp [List.isEmpty_iff]
    exact this.1
  · exact this.2

theorem normName_splitJoin (s : String) :
    normName (joinSpace (splitWhitespace s)) = true :=
  normName_joinSpace _ (splitWhitespace_tokens s)

theorem joinSpace_cons_append (a b : String) (l : List String) :
    joinSpace ((a ++ " " ++ b) :: l) = a ++ " " ++ joinSpace (b :: l) := by
  cases l with
  | nil => rfl
  | cons c cs =>
    show (a ++ " " ++ b) ++ " " ++ joinSpace (c :: cs) = _
    have hbs : joinSpace (b :: c :: cs) = b ++ " " ++ joinSpace (c :: cs) := rfl
    rw [hbs]
    simp [String.append_assoc]

theorem into_string_foldl (v : String) (rest : List String) :
    List.foldl (fun existing next => existing ++ " " ++ next) v rest =
      joinSpace (v :: rest) := by
  induction rest generalizing v with
  | nil => rfl
  | cons u us ih =>
    show List.foldl _ (v ++ " " ++ u) us = _
    rw [ih (v ++ " " ++ u), joinSpace_cons_append]
    rfl

/-! ## Slash-splitting lemmas -/

theorem splitSlashAux_no_slash (cs : List Char) :
    ∀ cur, (∀ c ∈ cs, c ≠ '/') → splitSlashAux cur cs = [cur.reverse ++ cs] := by
  induction cs with
  | nil => intro cur h; simp [splitSlashAux]
  | cons c cs ih =>
    intro cur h
    have hc : ¬(c = '/') := h c (List.mem_cons_self _ _)
    simp only [splitSlashAux, hc, if_false, List.append_eq]
    rw [ih (c :: cur) (fun d hd => h d (List.mem_cons_of_mem _ hd))]
    simp [List.append_assoc]

theorem splitSlashAux_append (xs ys : List Char) :
    ∀ cur, (∀ c ∈ xs, c ≠ '/') →
      splitSlashAux cur (xs ++ '/' :: ys) = (cur.reverse ++ xs) :: splitSlashAux [] ys := by
  induction xs with
  | nil => intro cur h; simp [splitSlashAux]
  | cons c cs ih =>
    intro cur h
    have hc : ¬(c = '/') := h c (List.mem_cons_self _ _)
    simp only [List.cons_append, splitSlashAux, hc, if_false, List.append_eq]
    rw [ih (c :: cur) (fun d hd => h d (List.mem_cons_of_mem _ hd))]
    simp [List.append_assoc]

theorem splitSlash_one (a : String) (ha : ∀ c ∈ a.data, c ≠ '/') :
    splitSlash a = [a] := by
  unfold splitSlash
  rw [splitSlashAux_no_slash a.data [] ha]
  rfl

theorem splitSlash_two (a b : String) (ha : ∀ c ∈ a.data, c ≠ '/')
    (hb : ∀ c ∈ b.data, c ≠ '/') :
    splitSlash (a ++ "/" ++ b) = [a, b] := by
  unfold splitSlash
  have hd : (a ++ "/" ++ b).data = a.data ++ '/' :: b.data := by simp
  rw [hd, splitSlashAux_append a.data b.data [] ha,
    splitSlashAux_no_slash b.data [] hb]
  rfl

theorem splitSlash_three (a b c : String) (ha : ∀ d ∈ a.data, d ≠ '/')
    (hb : ∀ d ∈ b.data, d ≠ '/') (hc : ∀ d ∈ c.data, d ≠ '/') :
    splitSlash (a ++ "/" ++ b ++ "/" ++ c) = [a, b, c] := by
  unfold splitSlash
  have hd : (a ++ "/" ++ b ++ "/" ++ c).data =
      a.data ++ '/' :: (b.data ++ '/' :: c.data) := by simp
  rw [hd, splitSlashAux_append, splitSlashAux_append, splitSlashAux_no_slash c.data [] hc]
  · rfl
  · exact hb
  · exact ha

/-! ## Rendered tokens and reference round trips -/

theorem isTokenStr_of (t : String) (hne : t.data ≠ [])
    (h : ∀ c ∈ t.data, isWsCh c = false) : isTokenStr t = true := by
  simp only [isTokenStr, Bool.and_eq_true, Bool.not_eq_true', List.all_eq_true]
  exact ⟨by simpa [List.isEmpty_iff] using hne, h⟩

theorem no_ws_append {s t : String} (hs : ∀ c ∈ s.data, isWsCh c = false)
    (ht : ∀ c ∈ t.data, isWsCh c = false) :
    ∀ c ∈ (s ++ t).data, isWsCh c = false := by
  intro c hc
  rw [String.data_append] at hc
  rcases List.mem_append.1 hc with h | h
  · exact hs c h
  · exact ht c h

theorem no_ws_empty : ∀ c ∈ ("" : String).data, isWsCh c = false :=
  fun _ hc => absurd hc (by simp)

theorem no_ws_dash : ∀ c ∈ ("-" : String).data, isWsCh c = false := by
  intro c hc
  simp at hc
  subst hc
  decide

theorem no_ws_dot : ∀ c ∈ ("." : String).data, isWsCh c = false := by
  intro c hc
  simp at hc
  subst hc
  decide

theorem no_ws_slash : ∀ c ∈ ("/" : String).data, isWsCh c = false := by
  intro c hc
  simp at hc
  subst hc
  decide

theorem no_ws_dslash : ∀ c ∈ ("//" : String).data, isWsCh c = false := by
  intro c hc
  have hc' : c = '/' := by simpa using hc
  subst hc'
  decide

theorem no_ws_renderNat (n : ℕ) : ∀ c ∈ (renderNat n).data, isWsCh c = false :=
  fun c hc => not_ws_of_digit (renderNat_all_digits n c hc)

theorem no_ws_padStr (k m : ℕ) :
    ∀ c ∈ (String.mk (padDigits k m)).data, isWsCh c = false :=
  fun c hc => not_ws_of_digit (padDigits_all_digits k m c hc)

theorem append_data_ne_nil_left {s : String} (t : String) (hs : s.data ≠ []) :
    (s ++ t).data ≠ [] := by
  rw [String.data_append]
  intro h
  exact hs (List.append_eq_nil.1 h).1

theorem isTokenStr_renderNat (n : ℕ) : isTokenStr (renderNat n) = true :=
  isTokenStr_of _ (renderNat_ne_nil n) (no_ws_renderNat n)

theorem renderF32_no_ws (v : F32) : ∀ c ∈ (renderF32 v).data, isWsCh c = false := by
  unfold renderF32
  by_cases hneg : v.man < 0 <;> by_cases he : v.exp = 0 <;>
    simp only [hneg, he, if_true, if_false]
  · exact no_ws_append no_ws_dash (no_ws_renderNat _)
  · exact no_ws_append no_ws_dash
      (no_ws_append (no_ws_append (no_ws_renderNat _) no_ws_dot) (no_ws_padStr _ _))
  · exact no_ws_renderNat _
  · exact no_ws_append (no_ws_append (no_ws_renderNat _) no_ws_dot) (no_ws_padStr _ _)

theorem dash_data_ne_nil : ("-" : String).data ≠ [] := by decide

theorem renderF32_ne_nil (v : F32) : (renderF32 v).data ≠ [] := by
  unfold renderF32
  by_cases hneg : v.man < 0 <;> by_cases he : v.exp = 0 <;>
    simp only [hneg, he, if_true, if_false]
  · exact append_data_ne_nil_left _ dash_data_ne_nil
  · exact append_data_ne_nil_left _ dash_data_ne_nil
  · exact renderNat_ne_nil _
  · exact append_data_ne_nil_left _ (append_data_ne_nil_left _ (renderNat_ne_nil _))

theorem isTokenStr_renderF32 (v : F32) : isTokenStr (renderF32 v) = true :=
  isTokenStr_of _ (renderF32_ne_nil v) (renderF32_no_ws v)

theorem renderLineTuple_eq (t : LineTuple) :
    renderLineTuple t = renderNat (t.pos + 1) ++
      (match t.tex with
       | none => ""
       | some x => "/" ++ renderNat (x + 1)) := rfl

theorem isTokenStr_renderLineTuple (t : LineTuple) :
    isTokenStr (renderLineTuple t) = true := by
  apply isTokenStr_of
  · rw [renderLineTuple_eq]
    exact append_data_ne_nil_left _ (renderNat_ne_nil _)
  · rw [renderLineTuple_eq]
    apply no_ws_append (no_ws_renderNat _)
    cases t.tex with
    | none => exact no_ws_empty
    | some x => exact no_ws_append no_ws_slash (no_ws_renderNat _)

theorem renderRef_eq (r : VertexRef) :
    renderRef r = renderNat (r.pos + 1) ++
      (match r.tex, r.norm with
       | none, none => ""
       | some t, none => "/" ++ renderNat (t + 1)
       | none, some n => "//" ++ renderNat (n + 1)
       | some t, some n => "/" ++ renderNat (t + 1) ++ "/" ++ renderNat (n + 1)) := rfl

theorem isTokenStr_renderRef (r : VertexRef) : isTokenStr (renderRef r) = true := by
  apply isTokenStr_of
  · rw [renderRef_eq]
    exact append_data_ne_nil_left _ (renderNat_ne_nil _)
  · rw [renderRef_eq]
    apply no_ws_append (no_ws_renderNat _)
    cases r.tex <;> cases r.norm
    · exact no_ws_empty
    · exact no_ws_append no_ws_dslash (no_ws_renderNat _)
    · exact no_ws_append no_ws_slash (no_ws_renderNat _)
    · exact no_ws_append
        (no_ws_append (no_ws_append no_ws_slash (no_ws_renderNat _)) no_ws_slash)
        (no_ws_renderNat _)

theorem parseZ_renderNat (n : ℕ) : parseZ (renderNat n) = some n := by
  unfold parseZ
  rw [stripSign_renderNat]
  simp only [parseNatDigits_renderNat]
  simp

theorem resolveIdx_pos {s : String} {v : ℤ} (len : ℕ) (h : parseZ s = some v)
    (hv : 0 < v) : resolveIdx len s = .ok (v - 1).toNat := by
  unfold resolveIdx
  simp only [h]
  rw [if_pos hv]

theorem resolveIdx_renderNat (len p : ℕ) :
    resolveIdx len (renderNat (p + 1)) = .ok p := by
  have hv : (0 : ℤ) < ((p + 1 : ℕ) : ℤ) := by positivity
  rw [resolveIdx_pos len (parseZ_renderNat (p + 1)) hv]
  congr 1
  omega

theorem renderNat_ne_empty (n : ℕ) : ¬(renderNat n = "") := by
  intro h
  have hd : (renderNat n).data = [] := by rw [h]
  exact renderNat_ne_nil n hd

theorem resolveOpt_renderNat (len x : ℕ) :
    resolveOpt len (renderNat (x + 1)) = .ok (some x) := by
  unfold resolveOpt
  rw [if_neg (renderNat_ne_empty (x + 1))]
  show (resolveIdx len (renderNat (x + 1))).bind _ = _
  rw [resolveIdx_renderNat]
  rfl

theorem renderNat_no_slash (n : ℕ) : ∀ c ∈ (renderNat n).data, c ≠ '/' :=
  fun c hc => not_slash_of_digit (renderNat_all_digits n c hc)

theorem mapExcept_ok {α β ε : Type} {f : α → Except ε β} {g : α → β} (l : List α)
    (h : ∀ x ∈ l, f x = .ok (g x)) : mapExcept f l = .ok (l.map g) := by
  induction l with
  | nil => rfl
  | cons a as ih =>
    have ha := h a (List.mem_cons_self _ _)
    have ihh := ih (fun x hx => h x (List.mem_cons_of_mem _ hx))
    simp only [mapExcept, ha, ihh]
    rfl

/-! ## Parsing rendered references -/

theorem splitSlash_congr {a b : String} (h : a.data = b.data) :
    splitSlash a = splitSlash b := by
  unfold splitSlash
  rw [h]

theorem splitSlash_refTwo (a b : String) (ha : ∀ c ∈ a.data, c ≠ '/')
    (hb : ∀ c ∈ b.data, c ≠ '/') : splitSlash (a ++ ("/" ++ b)) = [a, b] := by
  unfold splitSlash
  have hd : (a ++ ("/" ++ b)).data = a.data ++ '/' :: b.data := by simp
  rw [hd, splitSlashAux_append _ _ _ ha, splitSlashAux_no_slash _ _ hb]
  rfl

theorem splitSlash_refDslash (a c : String) (ha : ∀ d ∈ a.data, d ≠ '/')
    (hc : ∀ d ∈ c.data, d ≠ '/') : splitSlash (a ++ ("//" ++ c)) = [a, "", c] := by
  unfold splitSlash
  have hd : (a ++ ("//" ++ c)).data = a.data ++ '/' :: ('/' :: c.data) := by simp
  rw [hd, splitSlashAux_append _ _ _ ha]
  have h2 : splitSlashAux [] ('/' :: c.data) = [] :: splitSlashAux [] c.data := by
    simp [splitSlashAux]
  rw [h2, splitSlashAux_no_slash _ _ hc]
  rfl

theorem splitSlash_refThree (a b c : String) (ha : ∀ d ∈ a.data, d ≠ '/')
    (hb : ∀ d ∈ b.data, d ≠ '/') (hc : ∀ d ∈ c.data, d ≠ '/') :
    splitSlash (a ++ ("/" ++ b ++ "/" ++ c)) = [a, b, c] := by
  unfold splitSlash
  have hd : (a ++ ("/" ++ b ++ "/" ++ c)).data =
      a.data ++ '/' :: (b.data ++ '/' :: c.data) := by simp
  rw [hd, splitSlashAux_append _ _ _ ha, splitSlashAux_append _ _ _ hb,
    splitSlashAux_no_slash _ _ hc]
  rfl

theorem resolveOpt_empty (len : ℕ) : resolveOpt len "" = .ok none := rfl

theorem parseRefTok_renderRef (lens : ℕ × ℕ × ℕ) (r : VertexRef) :
    parseRefTok lens (renderRef r) = .ok r := by
  obtain ⟨p, t, n⟩ := r
  cases t <;> cases n
  · have hsplit : splitSlash (renderRef ⟨p, none, none⟩) = [renderNat (p + 1)] := by
      rw [splitSlash_congr (a := renderRef ⟨p, none, none⟩) (b := renderNat (p + 1))
        (by rw [renderRef_eq]; simp)]
      exact splitSlash_one _ (renderNat_no_slash _)
    unfold parseRefTok
    rw [hsplit]
    simp only [resolveIdx_renderNat]
    rfl
  · case none.some n =>
    have he : renderRef ⟨p, none, some n⟩ =
        renderNat (p + 1) ++ ("//" ++ renderNat (n + 1)) := rfl
    have hsplit : splitSlash (renderRef ⟨p, none, some n⟩) =
        [renderNat (p + 1), "", renderNat (n + 1)] := by
      rw [he]
      exact splitSlash_refDslash _ _ (renderNat_no_slash _) (renderNat_no_slash _)
    unfold parseRefTok
    rw [hsplit]
    simp only [resolveIdx_renderNat, resolveOpt_renderNat, resolveOpt_empty]
    rfl
  · case some.none t =>
    have he : renderRef ⟨p, some t, none⟩ =
        renderNat (p + 1) ++ ("/" ++ renderNat (t + 1)) := rfl
    have hsplit : splitSlash (renderRef ⟨p, some t, none⟩) =
        [renderNat (p + 1), renderNat (t + 1)] := by
      rw [he]
      exact splitSlash_refTwo _ _ (renderNat_no_slash _) (renderNat_no_slash _)
    unfold parseRefTok
    rw [hsplit]
    simp only [resolveIdx_renderNat, resolveOpt_renderNat]
    rfl
  · case some.some t n =>
    have he : renderRef ⟨p, some t, some n⟩ =
        renderNat (p + 1) ++ ("/" ++ renderNat (t + 1) ++ "/" ++ renderNat (n + 1)) := rfl
    have hsplit : splitSlash (renderRef ⟨p, some t, some n⟩) =
        [renderNat (p + 1), renderNat (t + 1), renderNat (n + 1)] := by
      rw [he]
      exact splitSlash_refThree _ _ _ (renderNat_no_slash _) (renderNat_no_slash _)
        (renderNat_no_slash _)
    unfold parseRefTok
    rw [hsplit]
    simp only [resolveIdx_renderNat, resolveOpt_renderNat]
    rfl

theorem parseLineTok_renderLineTuple (idx : ℕ) (lens : ℕ × ℕ × ℕ) (t : LineTuple) :
    parseLineTok idx lens (renderLineTuple t) = .ok t := by
  obtain ⟨p, tx⟩ := t
  cases tx
  · have hsplit : splitSlash (renderLineTuple ⟨p, none⟩) = [renderNat (p + 1)] := by
      rw [splitSlash_congr (a := renderLineTuple ⟨p, none⟩) (b := renderNat (p + 1))
        (by rw [renderLineTuple_eq]; simp)]
      exact splitSlash_one _ (renderNat_no_slash _)
    unfold parseLineTok
    rw [hsplit]
    simp only [resolveIdx_renderNat]
    rfl
  · case some x =>
    have he : renderLineTuple ⟨p, some x⟩ =
        renderNat (p + 1) ++ ("/" ++ renderNat (x + 1)) := rfl
    have hsplit : splitSlash (renderLineTuple ⟨p, some x⟩) =
        [renderNat (p + 1), renderNat (x + 1)] := by
      rw [he]
      exact splitSlash_refTwo _ _ (renderNat_no_slash _) (renderNat_no_slash _)
    unfold parseLineTok
    rw [hsplit]
    simp only [resolveIdx_renderNat, resolveOpt_renderNat]
    rfl

theorem mapExcept_map_ok {α β γ ε : Type} {f : β → Except ε γ} {r : α → β}
    {g : α → γ} (l : List α) (h : ∀ x ∈ l, f (r x) = .ok (g x)) :
    mapExcept f (l.map r) = .ok (l.map g) := by
  induction l with
  | nil => rfl
  | cons a as ih =>
    have ha := h a (List.mem_cons_self _ _)
    have ihh := ih (fun x hx => h x (List.mem_cons_of_mem _ hx))
    simp only [List.map_cons, mapExcept, ha, ihh]
    rfl

/-! ## Stepping over writer-produced lines -/

theorem parseComp_renderF32 (v : F32) : parseComp (renderF32 v) = .ok v := by
  unfold parseComp
  rw [parseF32_renderF32]

theorem objStep_header (idx : ℕ) (st : GState) : objStep idx st objHeader = .ok st := rfl

theorem objStep_vline (idx : ℕ) (st : GState) (p : F32 × F32 × F32) :
    objStep idx st (renderVLine p) = .ok { st with position := st.position ++ [p] } := by
  unfold renderVLine objStep
  rw [splitWhitespace_joinSpace _ ?_]
  · simp only [parseComp_renderF32]
    rfl
  · intro t ht
    simp at ht
    rcases ht with rfl | rfl | rfl | rfl
    · decide
    · exact isTokenStr_renderF32 _
    · exact isTokenStr_renderF32 _
    · exact isTokenStr_renderF32 _

theorem gline_split (name : String) :
    splitWhitespace ("g " ++ name) = "g" :: splitWhitespace name := by
  have he : "g " ++ name = "g" ++ " " ++ name := rfl
  rw [he]
  exact splitWhitespace_token_space _ _ (by decide)

theorem oline_split (name : String) :
    splitWhitespace ("o " ++ name) = "o" :: splitWhitespace name := by
  have he : "o " ++ name = "o" ++ " " ++ name := rfl
  rw [he]
  exact splitWhitespace_token_space _ _ (by decide)

theorem objStep_gline (idx : ℕ) (st : GState) (name : String) :
    objStep idx st ("g " ++ name) =
      .ok { st with doneGroups := st.flushGroups,
                    curGroup := ObjGroup.new (joinSpace (splitWhitespace name)) } := by
  unfold objStep
  rw [gline_split]
  rfl

theorem objStep_oline (idx : ℕ) (st : GState) (name : String) :
    objStep idx st ("o " ++ name) =
      .ok { st with objects := st.flushObjects,
                    curObjName := joinSpace (splitWhitespace name),
                    doneGroups := [], curGroup := ObjGroup.new "default" } := by
  unfold objStep
  rw [oline_split]
  rfl

theorem bind_ok_except {ε α β : Type} (a : α) (f : α → Except ε β) :
    (Except.ok (ε := ε) a) >>= f = f a := rfl

theorem objStep_lline (idx : ℕ) (st : GState) (ts : List LineTuple)
    (hlen : 2 ≤ ts.length) :
    objStep idx st (renderLLine ts) =
      .ok { st with curGroup :=
        { st.curGroup with lines := st.curGroup.lines ++ [ts] } } := by
  unfold renderLLine objStep
  rw [splitWhitespace_joinSpace _ ?_]
  · have hm : mapExcept (parseLineTok idx st.lens) (ts.map renderLineTuple) = .ok ts := by
      have := mapExcept_map_ok (f := parseLineTok idx st.lens) (r := renderLineTuple)
        (g := id) ts (fun x _ => parseLineTok_renderLineTuple idx st.lens x)
      simpa using this
    simp +decide only [hm, if_true, if_false, bind_ok_except]
    rw [if_pos hlen]
  · intro t ht
    simp at ht
    rcases ht with rfl | ht
    · decide
    · rcases ht with ⟨x, _, rfl⟩
      exact isTokenStr_renderLineTuple x

theorem objStep_fline (idx : ℕ) (st : GState) (rs : List VertexRef)
    (hlen : 3 ≤ rs.length) :
    objStep idx st (renderFLine rs) =
      .ok { st with curGroup :=
        { st.curGroup with faces := st.curGroup.faces ++ [rs] } } := by
  unfold renderFLine objStep
  rw [splitWhitespace_joinSpace _ ?_]
  · have hm : mapExcept (parseRefTok st.lens) (rs.map renderRef) = .ok rs := by
      have := mapExcept_map_ok (f := parseRefTok st.lens) (r := renderRef)
        (g := id) rs (fun x _ => parseRefTok_renderRef st.lens x)
      simpa using this
    simp +decide only [hm, if_true, if_false, bind_ok_except]
    rw [if_pos hlen]
  · intro t ht
    simp at ht
    rcases ht with rfl | ht
    · decide
    · rcases ht with ⟨x, _, rfl⟩
      exact isTokenStr_renderRef x

/-! ## Composing loader steps -/

theorem loadLoop_eq_stepList (ls : List String) : ∀ idx st,
    loadLoop idx st ls = (stepList idx st ls).map GState.finish := by
  induction ls with
  | nil => intro idx st; rfl
  | cons l ls ih =>
    intro idx st
    show (objStep idx st l).bind _ = ((objStep idx st l).bind _).map _
    cases h : objStep idx st l with
    | error e => rfl
    | ok st' =>
      show loadLoop (idx + 1) st' ls = _
      exact ih (idx + 1) st'

theorem stepList_cons_ok {idx : ℕ} {st st' : GState} {line : String}
    (h : objStep idx st line = .ok st') (rest : List String) :
    stepList idx st (line :: rest) = stepList (idx + 1) st' rest := by
  show (objStep idx st line).bind _ = _
  rw [h]
  rfl

theorem stepList_append (ls1 ls2 : List String) : ∀ idx st,
    stepList idx st (ls1 ++ ls2) =
      (stepList idx st ls1).bind (fun st' => stepList (idx + ls1.length) st' ls2) := by
  induction ls1 with
  | nil =>
    intro idx st
    rfl
  | cons l ls ih =>
    intro idx st
    show (objStep idx st l).bind _ = ((objStep idx st l).bind _).bind _
    cases h : objStep idx st l with
    | error e => rfl
    | ok st' =>
      show stepList (idx + 1) st' (ls ++ ls2) = _
      rw [ih (idx + 1) st']
      have hn : idx + 1 + ls.length = idx + (l :: ls).length := by
        simp
        omega
      rw [hn]
      rfl

/-! ## Reloading the writer's output -/

theorem okBind {ε α β : Type} (a : α) (f : α → Except ε β) :
    (Except.ok (ε := ε) a).bind f = f a := rfl

theorem stepList_vlines (ps : List (F32 × F32 × F32)) : ∀ idx st,
    stepList idx st (ps.map renderVLine) =
      .ok { st with position := st.position ++ ps } := by
  induction ps with
  | nil =>
    intro idx st
    simp [stepList]
  | cons p ps ih =>
    intro idx st
    rw [List.map_cons, stepList_cons_ok (objStep_vline idx st p), ih]
    simp

theorem stepList_llines (ls : List (List LineTuple)) (h : ∀ l ∈ ls, 2 ≤ l.length) :
    ∀ idx st, stepList idx st (ls.map renderLLine) =
      .ok { st with curGroup :=
        { st.curGroup with lines := st.curGroup.lines ++ ls } } := by
  induction ls with
  | nil =>
    intro idx st
    simp [stepList]
  | cons l ls ih =>
    intro idx st
    rw [List.map_cons,
      stepList_cons_ok (objStep_lline idx st l (h l (List.mem_cons_self _ _))),
      ih (fun x hx => h x (List.mem_cons_of_mem _ hx))]
    simp

theorem stepList_flines (fs : List (List VertexRef)) (h : ∀ f ∈ fs, 3 ≤ f.length) :
    ∀ idx st, stepList idx st (fs.map renderFLine) =
      .ok { st with curGroup :=
        { st.curGroup with faces := st.curGroup.faces ++ fs } } := by
  induction fs with
  | nil =>
    intro idx st
    simp [stepList]
  | cons f fs ih =>
    intro idx st
    rw [List.map_cons,
      stepList_cons_ok (objStep_fline idx st f (h f (List.mem_cons_self _ _))),
      ih (fun x hx => h x (List.mem_cons_of_mem _ hx))]
    simp

theorem stepList_groupBlock (g : ObjGroup) (hwf : wfGroup g) : ∀ idx st,
    stepList idx st (groupBlock g) =
      .ok { st with doneGroups := st.flushGroups, curGroup := g } := by
  obtain ⟨hname, hnp, h3, h2⟩ := hwf
  intro idx st
  have hn : joinSpace (splitWhitespace g.name) = g.name := by
    unfold normName at hname
    exact eq_of_beq hname
  unfold groupBlock
  rw [stepList_cons_ok (objStep_gline idx st g.name), hn, stepList_append,
    stepList_llines _ h2, okBind, stepList_flines _ h3]
  simp [ObjGroup.new]

theorem stepList_groupBlocks (gs : List ObjGroup) (hwf : ∀ g ∈ gs, wfGroup g) :
    ∀ idx st, ∃ st', stepList idx st (gs.flatMap groupBlock) = .ok st' ∧
      st'.flushGroups = st.flushGroups ++ gs ∧
      st'.position = st.position ∧ st'.texture = st.texture ∧
      st'.normal = st.normal ∧ st'.objects = st.objects ∧
      st'.curObjName = st.curObjName ∧ st'.mtlLibs = st.mtlLibs ∧
      st'.useMtls = st.useMtls := by
  induction gs with
  | nil =>
    intro idx st
    exact ⟨st, rfl, by simp, rfl, rfl, rfl, rfl, rfl, rfl, rfl⟩
  | cons g gs ih =>
    intro idx st
    rw [List.flatMap_cons, stepList_append,
      stepList_groupBlock g (hwf g (List.mem_cons_self _ _)), okBind]
    obtain ⟨st2, hrun, hfg, hpos, htex, hnorm, hobj, hnm, hlib, huse⟩ :=
      ih (fun x hx => hwf x (List.mem_cons_of_mem _ hx)) (idx + (groupBlock g).length)
        { st with doneGroups := st.flushGroups, curGroup := g }
    refine ⟨st2, hrun, ?_, hpos, htex, hnorm, hobj, hnm, hlib, huse⟩
    rw [hfg]
    have hg : GState.flushGroups { st with doneGroups := st.flushGroups, curGroup := g } =
        st.flushGroups ++ [g] := by
      unfold GState.flushGroups
      have : g.noPrims = false := (hwf g (List.mem_cons_self _ _)).2.1
      simp [this]
    rw [hg]
    simp

theorem stepList_objectBlocks (os : List Object) (hwf : ∀ o ∈ os, wfObject o) :
    ∀ idx st, ∃ st', stepList idx st (os.flatMap objectBlock) = .ok st' ∧
      st'.flushObjects = st.flushObjects ++ os ∧
      st'.position = st.position ∧ st'.texture = st.texture ∧
      st'.normal = st.normal ∧ st'.mtlLibs = st.mtlLibs ∧
      st'.useMtls = st.useMtls := by
  induction os with
  | nil =>
    intro idx st
    exact ⟨st, rfl, by simp, rfl, rfl, rfl, rfl, rfl⟩
  | cons o os ih =>
    intro idx st
    obtain ⟨honame, hone, hogs⟩ := hwf o (List.mem_cons_self _ _)
    have hn : joinSpace (splitWhitespace o.name) = o.name := by
      unfold normName at honame
      exact eq_of_beq honame
    have hob : objectBlock o = ("o " ++ o.name) :: o.groups.flatMap groupBlock := rfl
    rw [List.flatMap_cons, stepList_append, hob,
      stepList_cons_ok (objStep_oline idx st o.name), hn]
    obtain ⟨st2, hrun2, hfg2, hpos2, htex2, hnorm2, hobj2, hnm2, hlib2, huse2⟩ :=
      stepList_groupBlocks o.groups hogs (idx + 1)
        { st with objects := st.flushObjects, curObjName := o.name,
                  doneGroups := [], curGroup := ObjGroup.new "default" }
    simp only [hrun2, okBind]
    obtain ⟨st3, hrun3, hfo3, hpos3, htex3, hnorm3, hlib3, huse3⟩ :=
      ih (fun x hx => hwf x (List.mem_cons_of_mem _ hx))
        (idx + (("o " ++ o.name) :: o.groups.flatMap groupBlock).length) st2
    simp only [hrun3, okBind]
    refine ⟨st3, rfl, ?_, ?_, ?_, ?_, ?_, ?_⟩
    · rw [hfo3]
      have hfg1 : GState.flushGroups
          { st with objects := st.flushObjects, curObjName := o.name,
                    doneGroups := [], curGroup := ObjGroup.new "default" } = [] := by
        unfold GState.flushGroups
        simp [ObjGroup.new, ObjGroup.noPrims]
      have hfo2 : st2.flushObjects = st.flushObjects ++ [o] := by
        have hne : o.groups.isEmpty = false := by
          cases hgs : o.groups with
          | nil => exact absurd hgs hone
          | cons a as => rfl
        unfold GState.flushObjects
        rw [hfg2, hfg1]
        simp only [List.nil_append]
        rw [hobj2, hnm2]
        simp [hne]
        unfold GState.flushObjects
        simp [List.isEmpty_iff]
      rw [hfo2]
      simp
    · rw [hpos3, hpos2]
    · rw [htex3, htex2]
    · rw [hnorm3, hnorm2]
    · rw [hlib3, hlib2]
    · rw [huse3, huse2]

/-! ## The writer's output always reloads to the same model -/

theorem loadGeometry_writeGeometry (d : ObjData) (h : wfSubsetData d) :
    loadGeometry (writeGeometry d) = .ok d := by
  obtain ⟨dp, dt, dn, dob, dml, dum⟩ := d
  obtain ⟨htex, hnorm, hlib, huse, hobj⟩ := h
  simp only at htex hnorm hlib huse hobj
  subst htex
  subst hnorm
  subst hlib
  subst huse
  unfold loadGeometry writeGeometry
  rw [loadLoop_eq_stepList, stepList_cons_ok (objStep_header 0 initGState),
    stepList_append, stepList_vlines, okBind]
  obtain ⟨st', hrun, hfo, hpos, htex', hnorm', hlib', huse'⟩ :=
    stepList_objectBlocks dob hobj
      (0 + 1 + (List.map renderVLine dp).length)
      { initGState with position := initGState.position ++ dp }
  simp only at hrun
  rw [hrun]
  show Except.ok st'.finish = _
  congr 1
  unfold GState.finish
  rw [hpos, htex', hnorm', hfo, hlib', huse']
  simp [initGState, GState.flushObjects, GState.flushGroups, ObjGroup.new,
    ObjGroup.noPrims]

/-! ## Loading a subset file produces a well-formed model -/

theorem flushGroups_wf (st : GState) (hwf : wfState st) :
    ∀ g ∈ st.flushGroups, wfGroup g := by
  obtain ⟨_, _, _, _, _, hcn, hcf, hcl, hdg, _⟩ := hwf
  intro g hg
  unfold GState.flushGroups at hg
  by_cases hnp : st.curGroup.noPrims
  · rw [if_pos hnp] at hg
    exact hdg g hg
  · rw [if_neg hnp] at hg
    rcases List.mem_append.1 hg with h | h
    · exact hdg g h
    · have hge : g = st.curGroup := by simpa using h
      subst hge
      exact ⟨hcn, by simpa using hnp, hcf, hcl⟩

theorem flushObjects_wf (st : GState) (hwf : wfState st) :
    ∀ o ∈ st.flushObjects, wfObject o := by
  have hobj := hwf.2.2.2.2.2.2.2.2.2
  intro o ho
  unfold GState.flushObjects at ho
  by_cases hgs : st.flushGroups.isEmpty
  · rw [if_pos hgs] at ho
    exact hobj o ho
  · rw [if_neg hgs] at ho
    rcases List.mem_append.1 ho with h | h
    · exact hobj o h
    · have hoe : o = ⟨st.curObjName, st.flushGroups⟩ := by simpa using h
      subst hoe
      refine ⟨hwf.2.2.2.2.1, ?_, flushGroups_wf st hwf⟩
      simpa [List.isEmpty_iff] using hgs

theorem finish_wf (st : GState) (hwf : wfState st) (htex : st.texture = [])
    (hnorm : st.normal = []) (hlib : st.mtlLibs = []) (huse : st.useMtls = []) :
    wfSubsetData st.finish :=
  ⟨htex, hnorm, hlib, huse, flushObjects_wf st hwf⟩

theorem initGState_wf : wfState initGState := by
  refine ⟨rfl, rfl, rfl, rfl, by decide, by decide, ?_, ?_, ?_, ?_⟩ <;> simp [initGState, ObjGroup.new]

theorem bind_err_except {ε α β : Type} (e : ε) (f : α → Except ε β) :
    (Except.error (α := α) e) >>= f = Except.error e := rfl

theorem objStep_wf {idx : ℕ} {st st' : GState} {line : String}
    (hline : writerLineB line = true)
    (hstep : objStep idx st line = .ok st') (hwf : wfState st) : wfState st' := by
  unfold writerLineB at hline
  unfold objStep at hstep
  cases hsplit : splitWhitespace line with
  | nil =>
    rw [hsplit] at hstep
    injection hstep with h
    exact h ▸ hwf
  | cons tok rest =>
    rw [hsplit] at hstep hline
    dsimp only at hstep hline
    by_cases hv : tok = "v"
    · subst hv
      rw [if_pos rfl] at hstep
      match rest with
      | [] => exact absurd hstep (by simp)
      | [a] => exact absurd hstep (by simp)
      | [a, b] => exact absurd hstep (by simp)
      | a :: b :: c :: d :: ds => exact absurd hstep (by simp)
      | [a, b, c] =>
        dsimp only at hstep
        cases ha : parseComp a with
        | error e => rw [ha, bind_err_except] at hstep; exact absurd hstep (by simp)
        | ok x =>
          rw [ha, bind_ok_except] at hstep
          cases hb : parseComp b with
          | error e => rw [hb, bind_err_except] at hstep; exact absurd hstep (by simp)
          | ok y =>
            rw [hb, bind_ok_except] at hstep
            cases hc : parseComp c with
            | error e => rw [hc, bind_err_except] at hstep; exact absurd hstep (by simp)
            | ok z =>
              rw [hc, bind_ok_except] at hstep
              injection hstep with h
              exact h ▸ hwf
    · rw [if_neg hv] at hstep
      by_cases hvt : tok = "vt"
      · subst hvt; exact absurd hline (by decide)
      rw [if_neg hvt] at hstep
      by_cases hvn : tok = "vn"
      · subst hvn; exact absurd hline (by decide)
      rw [if_neg hvn] at hstep
      by_cases ho : tok = "o"
      · subst ho
        rw [if_pos rfl] at hstep
        injection hstep with h
        subst h
        refine ⟨hwf.1, hwf.2.1, hwf.2.2.1, hwf.2.2.2.1, ?_,
          (by decide : normName (ObjGroup.new "default").name = true),
          by simp [ObjGroup.new], by simp [ObjGroup.new], by simp,
          flushObjects_wf st hwf⟩
        apply normName_joinSpace
        intro t ht
        apply splitWhitespace_tokens line
        rw [hsplit]
        exact List.mem_cons_of_mem _ ht
      rw [if_neg ho] at hstep
      by_cases hg : tok = "g"
      · subst hg
        rw [if_pos rfl] at hstep
        injection hstep with h
        subst h
        refine ⟨hwf.1, hwf.2.1, hwf.2.2.1, hwf.2.2.2.1, hwf.2.2.2.2.1, ?_,
          by simp [ObjGroup.new], by simp [ObjGroup.new],
          flushGroups_wf st hwf, hwf.2.2.2.2.2.2.2.2.2⟩
        show normName (ObjGroup.new _).name = true
        apply normName_joinSpace
        intro t ht
        apply splitWhitespace_tokens line
        rw [hsplit]
        exact List.mem_cons_of_mem _ ht
      rw [if_neg hg] at hstep
      by_cases hf : tok = "f"
      · subst hf
        rw [if_pos rfl] at hstep
        cases hm : mapExcept (parseRefTok st.lens) rest with
        | error e => rw [hm, bind_err_except] at hstep; exact absurd hstep (by simp)
        | ok refs =>
          rw [hm, bind_ok_except] at hstep
          by_cases hlen : 3 ≤ refs.length
          · rw [if_pos hlen] at hstep
            injection hstep with h
            subst h
            refine ⟨hwf.1, hwf.2.1, hwf.2.2.1, hwf.2.2.2.1, hwf.2.2.2.2.1,
              hwf.2.2.2.2.2.1, ?_, hwf.2.2.2.2.2.2.2.1,
              hwf.2.2.2.2.2.2.2.2.1, hwf.2.2.2.2.2.2.2.2.2⟩
            intro fc hfc
            rcases List.mem_append.1 hfc with h | h
            · exact hwf.2.2.2.2.2.2.1 fc h
            · have hfr : fc = refs := by simpa using h
              subst hfr
              exact hlen
          · rw [if_neg hlen] at hstep
            exact absurd hstep (by simp)
      rw [if_neg hf] at hstep
      by_cases hl : tok = "l"
      · subst hl
        rw [if_pos rfl] at hstep
        cases hm : mapExcept (parseLineTok idx st.lens) rest with
        | error e => rw [hm, bind_err_except] at hstep; exact absurd hstep (by simp)
        | ok tups =>
          rw [hm, bind_ok_except] at hstep
          by_cases hlen : 2 ≤ tups.length
          · rw [if_pos hlen] at hstep
            injection hstep with h
            subst h
            refine ⟨hwf.1, hwf.2.1, hwf.2.2.1, hwf.2.2.2.1, hwf.2.2.2.2.1,
              hwf.2.2.2.2.2.1, hwf.2.2.2.2.2.2.1, ?_,
              hwf.2.2.2.2.2.2.2.2.1, hwf.2.2.2.2.2.2.2.2.2⟩
            intro lc hlc
            rcases List.mem_append.1 hlc with h | h
            · exact hwf.2.2.2.2.2.2.2.1 lc h
            · have hlr : lc = tups := by simpa using h
              subst hlr
              exact hlen
          · rw [if_neg hlen] at hstep
            exact absurd hstep (by simp)
      rw [if_neg hl] at hstep
      by_cases hu : tok = "usemtl"
      · subst hu; exact absurd hline (by decide)
      rw [if_neg hu] at hstep
      by_cases hm2 : tok = "mtllib"
      · subst hm2; exact absurd hline (by decide)
      rw [if_neg hm2] at hstep
      have hh : tok.data.head? = some '#' := by
        simp only [Bool.or_eq_true, beq_iff_eq] at hline
        rcases hline with ((((h | h) | h) | h) | h) | h
        · exact absurd h hv
        · exact absurd h ho
        · exact absurd h hg
        · exact absurd h hf
        · exact absurd h hl
        · exact h
      rw [if_pos hh] at hstep
      injection hstep with h
      exact h ▸ hwf

theorem stepList_wf : ∀ (lines : List String) (idx : ℕ) (st stF : GState),
    (∀ l ∈ lines, writerLineB l = true) → stepList idx st lines = .ok stF →
    wfState st → wfState stF := by
  intro lines
  induction lines with
  | nil =>
    intro idx st stF _ hrun hwf
    injection hrun with h
    exact h ▸ hwf
  | cons l ls ih =>
    intro idx st stF hall hrun hwf
    cases hstep : objStep idx st l with
    | error e =>
      rw [show stepList idx st (l :: ls) = (objStep idx st l).bind _ from rfl,
        hstep] at hrun
      exact absurd hrun (by simp [Except.bind])
    | ok st1 =>
      rw [stepList_cons_ok hstep] at hrun
      exact ih (idx + 1) st1 stF (fun x hx => hall x (List.mem_cons_of_mem _ hx)) hrun
        (objStep_wf (hall l (List.mem_cons_self _ _)) hstep hwf)

theorem loadGeometry_wf {lines : List String} {G : ObjData}
    (hsub : writerSubsetB lines = true) (hload : loadGeometry lines = .ok G) :
    wfSubsetData G := by
  unfold loadGeometry at hload
  rw [loadLoop_eq_stepList] at hload
  cases hsl : stepList 0 initGState lines with
  | error e =>
    rw [hsl] at hload
    exact absurd hload (by simp [Except.map])
  | ok stF =>
    rw [hsl] at hload
    have hG : stF.finish = G := by
      simpa [Except.map] using hload
    have hwfF : wfState stF :=
      stepList_wf lines 0 initGState stF (List.all_eq_true.1 hsub) hsl initGState_wf
    rw [← hG]
    exact finish_wf stF hwfF hwfF.1 hwfF.2.1 hwfF.2.2.1 hwfF.2.2.2.1

/-! ## Claim C1 -/

/-- C1: for every geometry text confined to the writer's supported directive
subset (`v`, `o`, `g`, `f`, `l`, plus comments and blank lines) that
`loadGeometry` parses successfully, loading, writing, and loading again
yields an in-memory model equal to the result of the first parse. -/
theorem c1_load_write_load_round_trip (lines : List String) (G : ObjData)
    (hsub : writerSubsetB lines = true) (hload : loadGeometry lines = .ok G) :
    loadGeometry (writeGeometry G) = .ok G :=
  loadGeometry_writeGeometry G (loadGeometry_wf hsub hload)

/-- Witness for C1 at the square file of spec §8
(`v 0 1 0 / v 0 0 0 / v 1 0 0 / v 1 1 0 / f 1 2 3 4`). -/
theorem c1_load_write_load_round_trip_witness :
    loadGeometry (writeGeometry
      ⟨[(⟨0, 0⟩, ⟨1, 0⟩, ⟨0, 0⟩), (⟨0, 0⟩, ⟨0, 0⟩, ⟨0, 0⟩),
        (⟨1, 0⟩, ⟨0, 0⟩, ⟨0, 0⟩), (⟨1, 0⟩, ⟨1, 0⟩, ⟨0, 0⟩)], [], [],
       [⟨"default", [⟨"default",
          [[⟨0, none, none⟩, ⟨1, none, none⟩, ⟨2, none, none⟩, ⟨3, none, none⟩]],
          []⟩]⟩], [], []⟩) =
    .ok ⟨[(⟨0, 0⟩, ⟨1, 0⟩, ⟨0, 0⟩), (⟨0, 0⟩, ⟨0, 0⟩, ⟨0, 0⟩),
        (⟨1, 0⟩, ⟨0, 0⟩, ⟨0, 0⟩), (⟨1, 0⟩, ⟨1, 0⟩, ⟨0, 0⟩)], [], [],
       [⟨"default", [⟨"default",
          [[⟨0, none, none⟩, ⟨1, none, none⟩, ⟨2, none, none⟩, ⟨3, none, none⟩]],
          []⟩]⟩], [], []⟩ :=
  c1_load_write_load_round_trip
    ["v 0 1 0", "v 0 0 0", "v 1 0 0", "v 1 1 0", "f 1 2 3 4"] _
    (by decide) (by decide)

/-! ## Claim C2 -/

theorem renderZ_no_slash (z : ℤ) : ∀ c ∈ (renderZ z).data, c ≠ '/' := by
  intro c hc
  unfold renderZ at hc
  split at hc
  · rw [String.data_append] at hc
    rcases List.mem_append.1 hc with h | h
    · have hc' : c = '-' := by simpa using h
      subst hc'
      decide
    · exact renderNat_no_slash _ c h
  · exact renderNat_no_slash _ c hc

theorem renderZ_ofNat (n : ℕ) : renderZ (n : ℤ) = renderNat n := by
  unfold renderZ
  rw [if_neg (by omega)]
  simp

theorem resolveIdx_neg {z : ℤ} (len : ℕ) (hz : z < 0) (hge : 0 ≤ (len : ℤ) + z) :
    resolveIdx len (renderZ z) = .ok ((len : ℤ) + z).toNat := by
  unfold resolveIdx
  simp only [parseZ_renderZ]
  rw [if_neg (by omega), if_neg (by omega), if_pos hge]

theorem parseRefTok_bare (lens : ℕ × ℕ × ℕ) (z : ℤ) (pout : ℕ)
    (h : resolveIdx lens.1 (renderZ z) = .ok pout) :
    parseRefTok lens (renderZ z) = .ok ⟨pout, none, none⟩ := by
  unfold parseRefTok
  rw [splitSlash_one _ (renderZ_no_slash z)]
  simp only [h]
  rfl

/-- C2: a face (or line) reference list made only of negative relative
indices denoting the immediately preceding `N` vertices resolves — against
the attribute-array lengths accumulated at the moment the directive is
parsed — to the identical `VertexRef` sequence as the equivalent
all-positive 1-based form: both resolve to positions
`lens.1 - N, …, lens.1 - 1` with no texture or normal components. -/
theorem c2_negative_index_equivalence (lens : ℕ × ℕ × ℕ) (N : ℕ)
    (h1 : 0 < N) (h2 : N ≤ lens.1) :
    mapExcept (parseRefTok lens)
        ((List.range N).map (fun (i : ℕ) => renderZ ((i : ℤ) - (N : ℤ)))) =
      .ok ((List.range N).map (fun i => ⟨lens.1 - N + i, none, none⟩)) ∧
    mapExcept (parseRefTok lens)
        ((List.range N).map (fun i => renderZ ((lens.1 - N + i + 1 : ℕ) : ℤ))) =
      .ok ((List.range N).map (fun i => ⟨lens.1 - N + i, none, none⟩)) := by
  constructor
  · apply mapExcept_map_ok
    intro i hi
    have hiN : i < N := List.mem_range.1 hi
    apply parseRefTok_bare
    rw [resolveIdx_neg lens.1 (by omega) (by omega)]
    congr 1
    omega
  · apply mapExcept_map_ok
    intro i hi
    have hiN : i < N := List.mem_range.1 hi
    apply parseRefTok_bare
    rw [renderZ_ofNat, resolveIdx_renderNat]

/-- Witness for C2 at the claim's example: four vertices then
`f -4 -3 -2 -1` versus `f 1 2 3 4`. -/
theorem c2_negative_index_equivalence_witness :
    mapExcept (parseRefTok (4, 0, 0))
        ((List.range 4).map (fun (i : ℕ) => renderZ ((i : ℤ) - (4 : ℤ)))) =
      .ok ((List.range 4).map (fun i => ⟨4 - 4 + i, none, none⟩)) ∧
    mapExcept (parseRefTok (4, 0, 0))
        ((List.range 4).map (fun i => renderZ ((4 - 4 + i + 1 : ℕ) : ℤ))) =
      .ok ((List.range 4).map (fun i => ⟨4 - 4 + i, none, none⟩)) :=
  c2_negative_index_equivalence (4, 0, 0) 4 (by decide) (by decide)

/-! ## Claim C9 -/

theorem isOkE_exists {ε α : Type} {x : Except ε α} (h : isOkE x = true) :
    ∃ v, x = .ok v := by
  cases x with
  | ok v => exact ⟨v, rfl⟩
  | error e => exact absurd h (by simp [isOkE])

theorem mapExcept_append_err {α β ε : Type} {f : α → Except ε β} (pre : List α)
    (x : α) (post : List α) (e : ε) (hpre : ∀ t ∈ pre, isOkE (f t) = true)
    (hx : f x = .error e) : mapExcept f (pre ++ x :: post) = .error e := by
  induction pre with
  | nil =>
    show (f x) >>= _ = _
    rw [hx, bind_err_except]
  | cons a as ih =>
    obtain ⟨v, hv⟩ := isOkE_exists (hpre a (List.mem_cons_self _ _))
    have hstep : mapExcept f ((a :: as) ++ x :: post) =
        (f a) >>= (fun b => (mapExcept f (as ++ x :: post)) >>=
          fun bs => Except.ok (b :: bs)) := rfl
    rw [hstep, hv, bind_ok_except,
      ih (fun t ht => hpre t (List.mem_cons_of_mem _ ht)), bind_err_except]

theorem parseLineTok_normal (idx : ℕ) (lens : ℕ × ℕ × ℕ) (tok : String)
    (h : tokHasNormal tok = true) :
    parseLineTok idx lens tok = .error (.LineHasNormalIndex idx) := by
  unfold tokHasNormal at h
  unfold parseLineTok
  cases hsp : splitSlash tok with
  | nil => rw [hsp] at h; exact absurd h (by simp)
  | cons a l1 =>
    cases l1 with
    | nil => rw [hsp] at h; exact absurd h (by simp)
    | cons b l2 =>
      cases l2 with
      | nil => rw [hsp] at h; exact absurd h (by simp)
      | cons c l3 =>
        cases l3 with
        | nil =>
          rw [hsp] at h
          dsimp only at h
          dsimp only
          rw [if_pos (by simpa using h)]
        | cons d l4 => rw [hsp] at h; exact absurd h (by simp)

/-- C9 (amended): a line (`l`) directive in which a reference carries a
non-empty normal field — and whose references before it all resolve — makes
the loader fail with a `LineHasNormalIndex` error carrying the 0-based
enumeration index of that source line (the repository's
`test_load_line_with_normal` pins index 5 for an `l` directive on the sixth
physical line). -/
theorem c9_line_normal_error (idx : ℕ) (st : GState) (line : String)
    (rest : List String) (pre post : List String) (tok : String)
    (hsplit : splitWhitespace line = "l" :: (pre ++ tok :: post))
    (hpre : ∀ t ∈ pre, isOkE (parseLineTok idx st.lens t) = true)
    (htok : tokHasNormal tok = true) :
    loadLoop idx st (line :: rest) = .error (.LineHasNormalIndex idx) := by
  have hstep : objStep idx st line = .error (.LineHasNormalIndex idx) := by
    unfold objStep
    rw [hsplit]
    dsimp only
    rw [if_neg (by decide), if_neg (by decide), if_neg (by decide),
      if_neg (by decide), if_neg (by decide), if_neg (by decide), if_pos rfl,
      mapExcept_append_err pre tok post _ hpre
        (parseLineTok_normal idx st.lens tok htok), bind_err_except]
  show (objStep idx st line) >>= _ = _
  rw [hstep, bind_err_except]

/-- Witness for C9 (amended), mirroring the repository test
`test_load_line_with_normal`: from the state after the five lines preceding
`l 1/1/1 2/1/1` (0-based index 5), the loader fails with
`LineHasNormalIndex 5`. -/
theorem c9_line_normal_error_witness :
    loadLoop 5
      ⟨[(⟨0, 0⟩, ⟨0, 0⟩, ⟨0, 0⟩), (⟨1, 0⟩, ⟨0, 0⟩, ⟨0, 0⟩)],
       [(⟨0, 0⟩, ⟨0, 0⟩, none)], [(⟨0, 0⟩, ⟨0, 0⟩, ⟨0, 0⟩)], [],
       "default", [], ObjGroup.new "default", [], []⟩
      ["    l 1/1/1 2/1/1", "    "] = .error (.LineHasNormalIndex 5) :=
  c9_line_normal_error 5 _ _ ["    "] [] ["2/1/1"] "1/1/1"
    (by decide) (by decide) (by decide)

/-- C9, counterexample to the claim as stated: an `l` directive with a
normal component on the **fifth** source line fails with
`LineHasNormalIndex 4` (the 0-based index), not 5 as the claim's 1-based
reading predicts. -/
theorem c9_counterexample :
    loadGeometry ["v 0 0 0", "v 1 0 0", "vt 0 0", "vn 0 0 0", "l 1/1/1 2/1/1"] =
      .error (.LineHasNormalIndex 4) := by decide

/-- The repository's `test_load_line_with_normal` input, reproduced exactly:
the `l` directive sits on the sixth physical line and the error carries
line number 5, the 0-based index. -/
theorem loadGeometry_line_with_normal_test :
    loadGeometry ["", "    v 0 0 0", "    v 1 0 0", "    vt 0 0",
      "    vn 0 0 0", "    l 1/1/1 2/1/1", "    "] =
      .error (.LineHasNormalIndex 5) := by decide

/-! ## Material directive dispatch lemmas -/

theorem mtl_loadLoop_cons_ok {mats : List Material} {cur : Option Material}
    {line : String} {mats' : List Material} {cur' : Option Material}
    (h : Mtl.step mats cur line = .ok (mats', cur')) (rest : List String) :
    Mtl.loadLoop mats cur (line :: rest) = Mtl.loadLoop mats' cur' rest := by
  show (Mtl.step mats cur line) >>= _ = _
  rw [h, bind_ok_except]

theorem mtl_loadLoop_cons_err {mats : List Material} {cur : Option Material}
    {line : String} {e : MtlError} (h : Mtl.step mats cur line = .error e)
    (rest : List String) : Mtl.loadLoop mats cur (line :: rest) = .error e := by
  show (Mtl.step mats cur line) >>= _ = _
  rw [h, bind_err_except]

/-- C3 core: a field directive with no active material is skipped without
running its value parser. -/
theorem mtl_step_field_no_material (mats : List Material) (line tok : String)
    (rest : List String) (hsplit : splitWhitespace line = tok :: rest)
    (htok : tok ∈ mtlFieldDirectives) :
    Mtl.step mats none line = .ok (mats, none) := by
  unfold Mtl.step
  rw [hsplit]
  dsimp only
  simp only [mtlFieldDirectives, List.mem_cons, List.not_mem_nil, or_false] at htok
  rcases htok with rfl | rfl | rfl | rfl | rfl | rfl | rfl | rfl | rfl | rfl | rfl | rfl | rfl | rfl | rfl | rfl | rfl | rfl | rfl <;> rfl

/-- A field directive with an active material leaves the flushed list and
the material's name unchanged, touching only the directive's own field. -/
theorem mtl_step_field {mats : List Material} {m : Material} {line tok : String}
    {rest : List String} {mats' : List Material} {cur' : Option Material}
    (hsplit : splitWhitespace line = tok :: rest) (htok : tok ∈ mtlFieldDirectives)
    (h : Mtl.step mats (some m) line = .ok (mats', cur')) :
    mats' = mats ∧ ∃ m', cur' = some m' ∧ m'.name = m.name ∧ matSameExcept tok m m' := by
  unfold Mtl.step at h
  rw [hsplit] at h
  dsimp only at h
  simp only [mtlFieldDirectives, List.mem_cons, List.not_mem_nil, or_false] at htok
  rcases htok with rfl | rfl | rfl | rfl | rfl | rfl | rfl | rfl | rfl | rfl | rfl | rfl | rfl | rfl | rfl | rfl | rfl | rfl | rfl
  · replace h : (do
        let (v, _) ← Parser.get_vec rest
        Except.ok (mats, some { m with ka := some v })) = Except.ok (mats', cur') := h
    cases hv : Parser.get_vec rest with
    | error e =>
      rw [hv, bind_err_except] at h
      exact absurd h (by simp)
    | ok p =>
      obtain ⟨v, r2⟩ := p
      rw [hv, bind_ok_except] at h
      injection h with h1
      injection h1 with h2 h3
      subst h2
      subst h3
      exact ⟨rfl, { m with ka := some v }, rfl, rfl, rfl⟩
  · replace h : (do
        let (v, _) ← Parser.get_vec rest
        Except.ok (mats, some { m with kd := some v })) = Except.ok (mats', cur') := h
    cases hv : Parser.get_vec rest with
    | error e =>
      rw [hv, bind_err_except] at h
      exact absurd h (by simp)
    | ok p =>
      obtain ⟨v, r2⟩ := p
      rw [hv, bind_ok_except] at h
      injection h with h1
      injection h1 with h2 h3
      subst h2
      subst h3
      exact ⟨rfl, { m with kd := some v }, rfl, rfl, rfl⟩
  · replace h : (do
        let (v, _) ← Parser.get_vec rest
        Except.ok (mats, some { m with ks := some v })) = Except.ok (mats', cur') := h
    cases hv : Parser.get_vec rest with
    | error e =>
      rw [hv, bind_err_except] at h
      exact absurd h (by simp)
    | ok p =>
      obtain ⟨v, r2⟩ := p
      rw [hv, bind_ok_except] at h
      injection h with h1
      injection h1 with h2 h3
      subst h2
      subst h3
      exact ⟨rfl, { m with ks := some v }, rfl, rfl, rfl⟩
  · replace h : (do
        let (v, _) ← Parser.get_vec rest
        Except.ok (mats, some { m with ke := some v })) = Except.ok (mats', cur') := h
    cases hv : Parser.get_vec rest with
    | error e =>
      rw [hv, bind_err_except] at h
      exact absurd h (by simp)
    | ok p =>
      obtain ⟨v, r2⟩ := p
      rw [hv, bind_ok_except] at h
      injection h with h1
      injection h1 with h2 h3
      subst h2
      subst h3
      exact ⟨rfl, { m with ke := some v }, rfl, rfl, rfl⟩
  · replace h : (do
        let (v, _) ← Parser.get_f32 rest
        Except.ok (mats, some { m with ns := some v })) = Except.ok (mats', cur') := h
    cases hv : Parser.get_f32 rest with
    | error e =>
      rw [hv, bind_err_except] at h
      exact absurd h (by simp)
    | ok p =>
      obtain ⟨v, r2⟩ := p
      rw [hv, bind_ok_except] at h
      injection h with h1
      injection h1 with h2 h3
      subst h2
      subst h3
      exact ⟨rfl, { m with ns := some v }, rfl, rfl, rfl⟩
  · replace h : (do
        let (v, _) ← Parser.get_f32 rest
        Except.ok (mats, some { m with ni := some v })) = Except.ok (mats', cur') := h
    cases hv : Parser.get_f32 rest with
    | error e =>
      rw [hv, bind_err_except] at h
      exact absurd h (by simp)
    | ok p =>
      obtain ⟨v, r2⟩ := p
      rw [hv, bind_ok_except] at h
      injection h with h1
      injection h1 with h2 h3
      subst h2
      subst h3
      exact ⟨rfl, { m with ni := some v }, rfl, rfl, rfl⟩
  · replace h : (do
        let (v, _) ← Parser.get_f32 rest
        Except.ok (mats, some { m with km := some v })) = Except.ok (mats', cur') := h
    cases hv : Parser.get_f32 rest with
    | error e =>
      rw [hv, bind_err_except] at h
      exact absurd h (by simp)
    | ok p =>
      obtain ⟨v, r2⟩ := p
      rw [hv, bind_ok_except] at h
      injection h with h1
      injection h1 with h2 h3
      subst h2
      subst h3
      exact ⟨rfl, { m with km := some v }, rfl, rfl, rfl⟩
  · replace h : (do
        let (v, _) ← Parser.get_f32 rest
        Except.ok (mats, some { m with d := some v })) = Except.ok (mats', cur') := h
    cases hv : Parser.get_f32 rest with
    | error e =>
      rw [hv, bind_err_except] at h
      exact absurd h (by simp)
    | ok p =>
      obtain ⟨v, r2⟩ := p
      rw [hv, bind_ok_except] at h
      injection h with h1
      injection h1 with h2 h3
      subst h2
      subst h3
      exact ⟨rfl, { m with d := some v }, rfl, rfl, rfl⟩
  · replace h : (do
        let (v, _) ← Parser.get_f32 rest
        Except.ok (mats, some { m with tr := some v })) = Except.ok (mats', cur') := h
    cases hv : Parser.get_f32 rest with
    | error e =>
      rw [hv, bind_err_except] at h
      exact absurd h (by simp)
    | ok p =>
      obtain ⟨v, r2⟩ := p
      rw [hv, bind_ok_except] at h
      injection h with h1
      injection h1 with h2 h3
      subst h2
      subst h3
      exact ⟨rfl, { m with tr := some v }, rfl, rfl, rfl⟩
  · replace h : (do
        let (v, _) ← Parser.get_vec rest
        Except.ok (mats, some { m with tf := some v })) = Except.ok (mats', cur') := h
    cases hv : Parser.get_vec rest with
    | error e =>
      rw [hv, bind_err_except] at h
      exact absurd h (by simp)
    | ok p =>
      obtain ⟨v, r2⟩ := p
      rw [hv, bind_ok_except] at h
      injection h with h1
      injection h1 with h2 h3
      subst h2
      subst h3
      exact ⟨rfl, { m with tf := some v }, rfl, rfl, rfl⟩
  · replace h : (do
        let (v, _) ← Parser.get_i32 rest
        Except.ok (mats, some { m with illum := some v })) = Except.ok (mats', cur') := h
    cases hv : Parser.get_i32 rest with
    | error e =>
      rw [hv, bind_err_except] at h
      exact absurd h (by simp)
    | ok p =>
      obtain ⟨v, r2⟩ := p
      rw [hv, bind_ok_except] at h
      injection h with h1
      injection h1 with h2 h3
      subst h2
      subst h3
      exact ⟨rfl, { m with illum := some v }, rfl, rfl, rfl⟩
  · replace h : (do
        let s ← Parser.into_string rest
        Except.ok (mats, some { m with map_ka := some s })) = Except.ok (mats', cur') := h
    cases hv : Parser.into_string rest with
    | error e =>
      rw [hv, bind_err_except] at h
      exact absurd h (by simp)
    | ok s =>
      rw [hv, bind_ok_except] at h
      injection h with h1
      injection h1 with h2 h3
      subst h2
      subst h3
      exact ⟨rfl, { m with map_ka := some s }, rfl, rfl, rfl⟩
  · replace h : (do
        let s ← Parser.into_string rest
        Except.ok (mats, some { m with map_kd := some s })) = Except.ok (mats', cur') := h
    cases hv : Parser.into_string rest with
    | error e =>
      rw [hv, bind_err_except] at h
      exact absurd h (by simp)
    | ok s =>
      rw [hv, bind_ok_except] at h
      injection h with h1
      injection h1 with h2 h3
      subst h2
      subst h3
      exact ⟨rfl, { m with map_kd := some s }, rfl, rfl, rfl⟩
  · replace h : (do
        let s ← Parser.into_string rest
        Except.ok (mats, some { m with map_ks := some s })) = Except.ok (mats', cur') := h
    cases hv : Parser.into_string rest with
    | error e =>
      rw [hv, bind_err_except] at h
      exact absurd h (by simp)
    | ok s =>
      rw [hv, bind_ok_except] at h
      injection h with h1
      injection h1 with h2 h3
      subst h2
      subst h3
      exact ⟨rfl, { m with map_ks := some s }, rfl, rfl, rfl⟩
  · replace h : (do
        let s ← Parser.into_string rest
        Except.ok (mats, some { m with map_d := some s })) = Except.ok (mats', cur') := h
    cases hv : Parser.into_string rest with
    | error e =>
      rw [hv, bind_err_except] at h
      exact absurd h (by simp)
    | ok s =>
      rw [hv, bind_ok_except] at h
      injection h with h1
      injection h1 with h2 h3
      subst h2
      subst h3
      exact ⟨rfl, { m with map_d := some s }, rfl, rfl, rfl⟩
  · replace h : (do
        let s ← Parser.into_string rest
        Except.ok (mats, some { m with map_refl := some s })) = Except.ok (mats', cur') := h
    cases hv : Parser.into_string rest with
    | error e =>
      rw [hv, bind_err_except] at h
      exact absurd h (by simp)
    | ok s =>
      rw [hv, bind_ok_except] at h
      injection h with h1
      injection h1 with h2 h3
      subst h2
      subst h3
      exact ⟨rfl, { m with map_refl := some s }, rfl, rfl, rfl⟩
  · replace h : (do
        let s ← Parser.into_string rest
        Except.ok (mats, some { m with map_bump := some s })) = Except.ok (mats', cur') := h
    cases hv : Parser.into_string rest with
    | error e =>
      rw [hv, bind_err_except] at h
      exact absurd h (by simp)
    | ok s =>
      rw [hv, bind_ok_except] at h
      injection h with h1
      injection h1 with h2 h3
      subst h2
      subst h3
      exact ⟨rfl, { m with map_bump := some s }, rfl, rfl, rfl⟩
  · replace h : (do
        let s ← Parser.into_string rest
        Except.ok (mats, some { m with map_bump := some s })) = Except.ok (mats', cur') := h
    cases hv : Parser.into_string rest with
    | error e =>
      rw [hv, bind_err_except] at h
      exact absurd h (by simp)
    | ok s =>
      rw [hv, bind_ok_except] at h
      injection h with h1
      injection h1 with h2 h3
      subst h2
      subst h3
      exact ⟨rfl, { m with map_bump := some s }, rfl, rfl, rfl⟩
  · replace h : (do
        let s ← Parser.into_string rest
        Except.ok (mats, some { m with map_bump := some s })) = Except.ok (mats', cur') := h
    cases hv : Parser.into_string rest with
    | error e =>
      rw [hv, bind_err_except] at h
      exact absurd h (by simp)
    | ok s =>
      rw [hv, bind_ok_except] at h
      injection h with h1
      injection h1 with h2 h3
      subst h2
      subst h3
      exact ⟨rfl, { m with map_bump := some s }, rfl, rfl, rfl⟩

/-- Processing the same field directive twice: the second occurrence
produces the same result from the once-updated material as from the
original one (the last occurrence wins). -/
theorem mtl_step_field_idem {mats : List Material} {m : Material}
    {line1 line2 tok : String} {rest1 rest2 : List String}
    {st1 : List Material × Option Material}
    (h1 : splitWhitespace line1 = tok :: rest1)
    (h2 : splitWhitespace line2 = tok :: rest2)
    (htok : tok ∈ mtlFieldDirectives)
    (hstep : Mtl.step mats (some m) line1 = .ok st1) :
    Mtl.step st1.1 st1.2 line2 = Mtl.step mats (some m) line2 := by
  obtain ⟨mats1, cur1⟩ := st1
  obtain ⟨hmats, m1, hcur, hname, hsame⟩ := mtl_step_field h1 htok hstep
  subst hcur
  rw [hmats]
  show Mtl.step mats (some m1) line2 = Mtl.step mats (some m) line2
  unfold Mtl.step
  rw [h2]
  dsimp only
  simp only [mtlFieldDirectives, List.mem_cons, List.not_mem_nil, or_false] at htok
  rcases htok with rfl | rfl | rfl | rfl | rfl | rfl | rfl | rfl | rfl | rfl | rfl | rfl | rfl | rfl | rfl | rfl | rfl | rfl | rfl
  · show (do
        let (v, _) ← Parser.get_vec rest2
        Except.ok (mats, some { m1 with ka := some v })) = (do
        let (v, _) ← Parser.get_vec rest2
        Except.ok (mats, some { m with ka := some v }))
    cases hv : Parser.get_vec rest2 with
    | error e => rfl
    | ok p =>
      obtain ⟨v, r2⟩ := p
      have hm : ({ m1 with ka := some v } : Material) = { m with ka := some v } := by
        rw [show m1 = { m with ka := m1.ka } from hsame]
      rw [bind_ok_except, bind_ok_except]
      dsimp only
      rw [hm]
  · show (do
        let (v, _) ← Parser.get_vec rest2
        Except.ok (mats, some { m1 with kd := some v })) = (do
        let (v, _) ← Parser.get_vec rest2
        Except.ok (mats, some { m with kd := some v }))
    cases hv : Parser.get_vec rest2 with
    | error e => rfl
    | ok p =>
      obtain ⟨v, r2⟩ := p
      have hm : ({ m1 with kd := some v } : Material) = { m with kd := some v } := by
        rw [show m1 = { m with kd := m1.kd } from hsame]
      rw [bind_ok_except, bind_ok_except]
      dsimp only
      rw [hm]
  · show (do
        let (v, _) ← Parser.get_vec rest2
        Except.ok (mats, some { m1 with ks := some v })) = (do
        let (v, _) ← Parser.get_vec rest2
        Except.ok (mats, some { m with ks := some v }))
    cases hv : Parser.get_vec rest2 with
    | error e => rfl
    | ok p =>
      obtain ⟨v, r2⟩ := p
      have hm : ({ m1 with ks := some v } : Material) = { m with ks := some v } := by
        rw [show m1 = { m with ks := m1.ks } from hsame]
      rw [bind_ok_except, bind_ok_except]
      dsimp only
      rw [hm]
  · show (do
        let (v, _) ← Parser.get_vec rest2
        Except.ok (mats, some { m1 with ke := some v })) = (do
        let (v, _) ← Parser.get_vec rest2
        Except.ok (mats, some { m with ke := some v }))
    cases hv : Parser.get_vec rest2 with
    | error e => rfl
    | ok p =>
      obtain ⟨v, r2⟩ := p
      have hm : ({ m1 with ke := some v } : Material) = { m with ke := some v } := by
        rw [show m1 = { m with ke := m1.ke } from hsame]
      rw [bind_ok_except, bind_ok_except]
      dsimp only
      rw [hm]
  · show (do
        let (v, _) ← Parser.get_f32 rest2
        Except.ok (mats, some { m1 with ns := some v })) = (do
        let (v, _) ← Parser.get_f32 rest2
        Except.ok (mats, some { m with ns := some v }))
    cases hv : Parser.get_f32 rest2 with
    | error e => rfl
    | ok p =>
      obtain ⟨v, r2⟩ := p
      have hm : ({ m1 with ns := some v } : Material) = { m with ns := some v } := by
        rw [show m1 = { m with ns := m1.ns } from hsame]
      rw [bind_ok_except, bind_ok_except]
      dsimp only
      rw [hm]
  · show (do
        let (v, _) ← Parser.get_f32 rest2
        Except.ok (mats, some { m1 with ni := some v })) = (do
        let (v, _) ← Parser.get_f32 rest2
        Except.ok (mats, some { m with ni := some v }))
    cases hv : Parser.get_f32 rest2 with
    | error e => rfl
    | ok p =>
      obtain ⟨v, r2⟩ := p
      have hm : ({ m1 with ni := some v } : Material) = { m with ni := some v } := by
        rw [show m1 = { m with ni := m1.ni } from hsame]
      rw [bind_ok_except, bind_ok_except]
      dsimp only
      rw [hm]
  · show (do
        let (v, _) ← Parser.get_f32 rest2
        Except.ok (mats, some { m1 with km := some v })) = (do
        let (v, _) ← Parser.get_f32 rest2
        Except.ok (mats, some { m with km := some v }))
    cases hv : Parser.get_f32 rest2 with
    | error e => rfl
    | ok p =>
      obtain ⟨v, r2⟩ := p
      have hm : ({ m1 with km := some v } : Material) = { m with km := some v } := by
        rw [show m1 = { m with km := m1.km } from hsame]
      rw [bind_ok_except, bind_ok_except]
      dsimp only
      rw [hm]
  · show (do
        let (v, _) ← Parser.get_f32 rest2
        Except.ok (mats, some { m1 with d := some v })) = (do
        let (v, _) ← Parser.get_f32 rest2
        Except.ok (mats, some { m with d := some v }))
    cases hv : Parser.get_f32 rest2 with
    | error e => rfl
    | ok p =>
      obtain ⟨v, r2⟩ := p
      have hm : ({ m1 with d := some v } : Material) = { m with d := some v } := by
        rw [show m1 = { m with d := m1.d } from hsame]
      rw [bind_ok_except, bind_ok_except]
      dsimp only
      rw [hm]
  · show (do
        let (v, _) ← Parser.get_f32 rest2
        Except.ok (mats, some { m1 with tr := some v })) = (do
        let (v, _) ← Parser.get_f32 rest2
        Except.ok (mats, some { m with tr := some v }))
    cases hv : Parser.get_f32 rest2 with
    | error e => rfl
    | ok p =>
      obtain ⟨v, r2⟩ := p
      have hm : ({ m1 with tr := some v } : Material) = { m with tr := some v } := by
        rw [show m1 = { m with tr := m1.tr } from hsame]
      rw [bind_ok_except, bind_ok_except]
      dsimp only
      rw [hm]
  · show (do
        let (v, _) ← Parser.get_vec rest2
        Except.ok (mats, some { m1 with tf := some v })) = (do
        let (v, _) ← Parser.get_vec rest2
        Except.ok (mats, some { m with tf := some v }))
    cases hv : Parser.get_vec rest2 with
    | error e => rfl
    | ok p =>
      obtain ⟨v, r2⟩ := p
      have hm : ({ m1 with tf := some v } : Material) = { m with tf := some v } := by
        rw [show m1 = { m with tf := m1.tf } from hsame]
      rw [bind_ok_except, bind_ok_except]
      dsimp only
      rw [hm]
  · show (do
        let (v, _) ← Parser.get_i32 rest2
        Except.ok (mats, some { m1 with illum := some v })) = (do
        let (v, _) ← Parser.get_i32 rest2
        Except.ok (mats, some { m with illum := some v }))
    cases hv : Parser.get_i32 rest2 with
    | error e => rfl
    | ok p =>
      obtain ⟨v, r2⟩ := p
      have hm : ({ m1 with illum := some v } : Material) = { m with illum := some v } := by
        rw [show m1 = { m with illum := m1.illum } from hsame]
      rw [bind_ok_except, bind_ok_except]
      dsimp only
      rw [hm]
  · show (do
        let s ← Parser.into_string rest2
        Except.ok (mats, some { m1 with map_ka := some s })) = (do
        let s ← Parser.into_string rest2
        Except.ok (mats, some { m with map_ka := some s }))
    cases hv : Parser.into_string rest2 with
    | error e => rfl
    | ok s =>
      have hm : ({ m1 with map_ka := some s } : Material) = { m with map_ka := some s } := by
        rw [show m1 = { m with map_ka := m1.map_ka } from hsame]
      rw [bind_ok_except, bind_ok_except]
      rw [hm]
  · show (do
        let s ← Parser.into_string rest2
        Except.ok (mats, some { m1 with map_kd := some s })) = (do
        let s ← Parser.into_string rest2
        Except.ok (mats, some { m with map_kd := some s }))
    cases hv : Parser.into_string rest2 with
    | error e => rfl
    | ok s =>
      have hm : ({ m1 with map_kd := some s } : Material) = { m with map_kd := some s } := by
        rw [show m1 = { m with map_kd := m1.map_kd } from hsame]
      rw [bind_ok_except, bind_ok_except]
      rw [hm]
  · show (do
        let s ← Parser.into_string rest2
        Except.ok (mats, some { m1 with map_ks := some s })) = (do
        let s ← Parser.into_string rest2
        Except.ok (mats, some { m with map_ks := some s }))
    cases hv : Parser.into_string rest2 with
    | error e => rfl
    | ok s =>
      have hm : ({ m1 with map_ks := some s } : Material) = { m with map_ks := some s } := by
        rw [show m1 = { m with map_ks := m1.map_ks } from hsame]
      rw [bind_ok_except, bind_ok_except]
      rw [hm]
  · show (do
        let s ← Parser.into_string rest2
        Except.ok (mats, some { m1 with map_d := some s })) = (do
        let s ← Parser.into_string rest2
        Except.ok (mats, some { m with map_d := some s }))
    cases hv : Parser.into_string rest2 with
    | error e => rfl
    | ok s =>
      have hm : ({ m1 with map_d := some s } : Material) = { m with map_d := some s } := by
        rw [show m1 = { m with map_d := m1.map_d } from hsame]
      rw [bind_ok_except, bind_ok_except]
      rw [hm]
  · show (do
        let s ← Parser.into_string rest2
        Except.ok (mats, some { m1 with map_refl := some s })) = (do
        let s ← Parser.into_string rest2
        Except.ok (mats, some { m with map_refl := some s }))
    cases hv : Parser.into_string rest2 with
    | error e => rfl
    | ok s =>
      have hm : ({ m1 with map_refl := some s } : Material) = { m with map_refl := some s } := by
        rw [show m1 = { m with map_refl := m1.map_refl } from hsame]
      rw [bind_ok_except, bind_ok_except]
      rw [hm]
  · show (do
        let s ← Parser.into_string rest2
        Except.ok (mats, some { m1 with map_bump := some s })) = (do
        let s ← Parser.into_string rest2
        Except.ok (mats, some { m with map_bump := some s }))
    cases hv : Parser.into_string rest2 with
    | error e => rfl
    | ok s =>
      have hm : ({ m1 with map_bump := some s } : Material) = { m with map_bump := some s } := by
        rw [show m1 = { m with map_bump := m1.map_bump } from hsame]
      rw [bind_ok_except, bind_ok_except]
      rw [hm]
  · show (do
        let s ← Parser.into_string rest2
        Except.ok (mats, some { m1 with map_bump := some s })) = (do
        let s ← Parser.into_string rest2
        Except.ok (mats, some { m with map_bump := some s }))
    cases hv : Parser.into_string rest2 with
    | error e => rfl
    | ok s =>
      have hm : ({ m1 with map_bump := some s } : Material) = { m with map_bump := some s } := by
        rw [show m1 = { m with map_bump := m1.map_bump } from hsame]
      rw [bind_ok_except, bind_ok_except]
      rw [hm]
  · show (do
        let s ← Parser.into_string rest2
        Except.ok (mats, some { m1 with map_bump := some s })) = (do
        let s ← Parser.into_string rest2
        Except.ok (mats, some { m with map_bump := some s }))
    cases hv : Parser.into_string rest2 with
    | error e => rfl
    | ok s =>
      have hm : ({ m1 with map_bump := some s } : Material) = { m with map_bump := some s } := by
        rw [show m1 = { m with map_bump := m1.map_bump } from hsame]
      rw [bind_ok_except, bind_ok_except]
      rw [hm]

/-! ## Material names bookkeeping -/

theorem filterMap_cons_append {α β : Type} (f : α → Option β) (a : α) (l : List α) :
    List.filterMap f (a :: l) = List.filterMap f [a] ++ List.filterMap f l := by
  rw [List.filterMap_cons]
  cases hfa : f a <;> simp [List.filterMap_cons, hfa]

theorem newmtlNames_cons (l : String) (r : List String) :
    newmtlNames (l :: r) = newmtlNames [l] ++ newmtlNames r :=
  filterMap_cons_append _ l r

/-- One accepted line extends the flat list of material names (accumulated
materials followed by the material in progress) by exactly the name of the
line's `newmtl` token, if any. -/
theorem mtl_step_names {mats : List Material} {cur : Option Material} {line : String}
    {mats' : List Material} {cur' : Option Material}
    (h : Mtl.step mats cur line = .ok (mats', cur')) :
    mats'.map Material.name ++ cur'.toList.map Material.name =
      mats.map Material.name ++ cur.toList.map Material.name ++ newmtlNames [line] := by
  cases hsplit : splitWhitespace line with
  | nil =>
    unfold Mtl.step at h
    rw [hsplit] at h
    injection h with h1
    injection h1 with h2 h3
    have hnn : newmtlNames [line] = [] := by
      unfold newmtlNames
      simp [List.filterMap_cons, hsplit]
    rw [hnn, ← h2, ← h3]
    simp
  | cons tok rest =>
    by_cases hnew : tok = "newmtl"
    · subst hnew
      unfold Mtl.step at h
      rw [hsplit] at h
      dsimp only at h
      rw [if_pos rfl] at h
      cases rest with
      | nil => exact absurd h (by simp)
      | cons name more =>
        injection h with h1
        injection h1 with h2 h3
        have hnn : newmtlNames [line] = [name] := by
          unfold newmtlNames
          simp [List.filterMap_cons, hsplit]
        rw [hnn, ← h2, ← h3]
        simp [Material.new]
    · have hnn : newmtlNames [line] = [] := by
        unfold newmtlNames
        cases rest with
        | nil => simp [List.filterMap_cons, hsplit]
        | cons a b => simp [List.filterMap_cons, hsplit, hnew]
      rw [hnn]
      by_cases hfield : tok ∈ mtlFieldDirectives
      · cases cur with
        | none =>
          rw [mtl_step_field_no_material mats line tok rest hsplit hfield] at h
          injection h with h1
          injection h1 with h2 h3
          rw [← h2, ← h3]
          simp
        | some m =>
          obtain ⟨hm, m', hc, hnm, _⟩ := mtl_step_field hsplit hfield h
          subst hm
          subst hc
          simp [hnm]
      · unfold Mtl.step at h
        rw [hsplit] at h
        dsimp only at h
        have hnmem : ∀ s, s ∈ mtlFieldDirectives → ¬ tok = s := fun s hs e => hfield (e ▸ hs)
        have hbump : ¬(tok = "map_bump" ∨ tok = "map_Bump" ∨ tok = "bump") := by
          rintro (h1 | h1 | h1)
          · exact hnmem "map_bump" (by decide) h1
          · exact hnmem "map_Bump" (by decide) h1
          · exact hnmem "bump" (by decide) h1
        rw [if_neg hnew, if_neg (hnmem "Ka" (by decide)), if_neg (hnmem "Kd" (by decide)),
          if_neg (hnmem "Ks" (by decide)), if_neg (hnmem "Ke" (by decide)),
          if_neg (hnmem "Ns" (by decide)), if_neg (hnmem "Ni" (by decide)),
          if_neg (hnmem "Km" (by decide)), if_neg (hnmem "d" (by decide)),
          if_neg (hnmem "Tr" (by decide)), if_neg (hnmem "Tf" (by decide)),
          if_neg (hnmem "illum" (by decide)), if_neg (hnmem "map_Ka" (by decide)),
          if_neg (hnmem "map_Kd" (by decide)), if_neg (hnmem "map_Ks" (by decide)),
          if_neg (hnmem "map_d" (by decide)), if_neg (hnmem "map_refl" (by decide)),
          if_neg hbump] at h
        by_cases hh : tok.data.head? = some '#'
        · rw [if_pos hh] at h
          injection h with h1
          injection h1 with h2 h3
          rw [← h2, ← h3]
          simp
        · rw [if_neg hh] at h
          exact absurd h (by simp)

/-- Over a whole accepted file, the returned material names are the initial
accumulator's names followed by the `newmtl` names of the lines, in order. -/
theorem mtl_loadLoop_names : ∀ (lines : List String) (mats : List Material)
    (cur : Option Material) (res : Mtl), Mtl.loadLoop mats cur lines = .ok res →
    res.materials.map Material.name =
      mats.map Material.name ++ cur.toList.map Material.name ++ newmtlNames lines := by
  intro lines
  induction lines with
  | nil =>
    intro mats cur res h
    injection h with h1
    rw [← h1]
    simp [newmtlNames]
  | cons line rest ih =>
    intro mats cur res h
    cases hstep : Mtl.step mats cur line with
    | error e =>
      rw [mtl_loadLoop_cons_err hstep rest] at h
      exact absurd h (by simp)
    | ok p =>
      obtain ⟨mats1, cur1⟩ := p
      rw [mtl_loadLoop_cons_ok hstep rest] at h
      rw [ih mats1 cur1 res h, mtl_step_names hstep]
      conv_rhs => rw [newmtlNames_cons]
      simp [List.append_assoc]

/-! ## Multi-space tokenisation -/

theorem splitWsAux_spaces_absorb (k : ℕ) (ys : List Char) :
    splitWsAux [] (List.replicate k ' ' ++ ys) = splitWsAux [] ys := by
  induction k with
  | zero => simp
  | succ n ih =>
    have h1 : splitWsAux [] (' ' :: (List.replicate n ' ' ++ ys)) =
        splitWsAux [] (List.replicate n ' ' ++ ys) := by
      simp [splitWsAux, show isWsCh ' ' = true from by decide]
    rw [List.replicate_succ, List.cons_append, h1, ih]

theorem splitWhitespace_token_spaces (t : String) (k : ℕ) (s : String)
    (h : isTokenStr t = true) :
    splitWhitespace (t ++ (spacesStr (k + 1) ++ s)) = t :: splitWhitespace s := by
  simp only [isTokenStr, Bool.and_eq_true, Bool.not_eq_true', List.all_eq_true] at h
  unfold splitWhitespace
  have hd : (t ++ (spacesStr (k + 1) ++ s)).data =
      t.data ++ (' ' :: (List.replicate k ' ' ++ s.data)) := by
    simp [spacesStr, List.replicate_succ]
  rw [hd, splitWsAux_append_space, splitWsAux_spaces_absorb, splitWsAux_no_ws t.data [] h.2]
  have hne : ¬(t.data = []) := by
    intro hd2
    rw [List.isEmpty_iff.2 hd2] at h
    exact absurd h.1 (by decide)
  simp [hne]

/-! ## Claims C3, C4, C5, C6, C7, C8, C10 -/

/-- C3 (corrected): a material field directive encountered while no material
is active is skipped and the accumulated material list is unchanged, for
EVERY remainder of the line — in particular the value tokens are not
validated, so a malformed value before any `newmtl` does not surface a
parse error (contrary to the claim's last part). -/
theorem c3_field_directive_before_newmtl (mats : List Material) (line tok : String)
    (rest : List String) (hsplit : splitWhitespace line = tok :: rest)
    (htok : tok ∈ mtlFieldDirectives) :
    Mtl.step mats none line = .ok (mats, none) :=
  mtl_step_field_no_material mats line tok rest hsplit htok

theorem c3_field_directive_before_newmtl_witness :
    Mtl.step [] none "Ka x y z" = .ok ([], none) :=
  c3_field_directive_before_newmtl [] "Ka x y z" "Ka" ["x", "y", "z"]
    (by decide) (by decide)

/-- C3 counterexample to the claim as stated: `Ka x y z` before any `newmtl`
is accepted (the whole file loads with no error), not rejected. -/
theorem c3_counterexample : Mtl.load ["Ka x y z"] = .ok ⟨[]⟩ := by decide

/-- C4 (corrected): `Parser::get_vec` succeeds whenever at least three
tokens follow and the first three parse as floats, consuming exactly three
and leaving the rest (so four numeric tokens do NOT make it fail); with
fewer than three tokens it fails with an invalid-value error rendering the
option triple; an unparsable token among the first three yields an
invalid-value error. -/
theorem c4_get_vec_arity :
    (∀ (x y z : String) (rest : List String) (qx qy qz : F32),
        parseF32 x = some qx → parseF32 y = some qy → parseF32 z = some qz →
        Parser.get_vec (x :: y :: z :: rest) = .ok ((qx, qy, qz), rest)) ∧
    (∀ toks : List String, toks.length < 3 →
        Parser.get_vec toks =
          .error (.InvalidValue
            (dbgTripleOpt toks.head? (toks.drop 1).head? (toks.drop 2).head?))) ∧
    (∀ (x y z : String) (rest : List String),
        (parseF32 x = none ∨ parseF32 y = none ∨ parseF32 z = none) →
        isInvalidValueErr (Parser.get_vec (x :: y :: z :: rest)) = true) := by
  refine ⟨?_, ?_, ?_⟩
  · intro x y z rest qx qy qz hx hy hz
    unfold Parser.get_vec
    dsimp only
    rw [hx, hy, hz]
  · intro toks hlen
    rcases toks with - | ⟨x, - | ⟨y, - | ⟨z, r⟩⟩⟩
    · rfl
    · rfl
    · rfl
    · exfalso
      simp only [List.length_cons] at hlen
      omega
  · intro x y z rest hbad
    rcases hbad with hx | hy | hz
    · unfold Parser.get_vec
      dsimp only
      rw [hx]
      rfl
    · unfold Parser.get_vec
      dsimp only
      cases hpx : parseF32 x <;> rw [hy] <;> rfl
    · unfold Parser.get_vec
      dsimp only
      cases hpx : parseF32 x <;> cases hpy : parseF32 y <;> rw [hz] <;> rfl

theorem c4_get_vec_arity_witness :
    Parser.get_vec ["1.5", "2", "3", "4"] =
      .ok (((⟨15, 1⟩ : F32), (⟨2, 0⟩ : F32), (⟨3, 0⟩ : F32)), ["4"]) ∧
    Parser.get_vec ["1", "2"] =
      .error (.InvalidValue (dbgTripleOpt (some "1") (some "2") none)) ∧
    isInvalidValueErr (Parser.get_vec ["x", "2", "3"]) = true :=
  ⟨c4_get_vec_arity.1 "1.5" "2" "3" ["4"] ⟨15, 1⟩ ⟨2, 0⟩ ⟨3, 0⟩
      (by decide) (by decide) (by decide),
   c4_get_vec_arity.2.1 ["1", "2"] (by decide),
   c4_get_vec_arity.2.2 "x" "2" "3" [] (Or.inl (by decide))⟩

/-- C4 counterexample to the claim as stated: a `Ka` line with FOUR numeric
tokens is accepted (the fourth token is ignored), not rejected. -/
theorem c4_counterexample : Mtl.load ["newmtl m", "Ka 1 2 3 4"] =
    .ok ⟨[{ Material.new "m" with
      ka := some ((⟨1, 0⟩ : F32), (⟨2, 0⟩ : F32), (⟨3, 0⟩ : F32)) }]⟩ := by decide

/-- C5 (code bug): although `Material` declares `map_ke` and `map_ns`
fields, `Mtl::load` has no match arms for `map_Ke` / `map_Ns`, so with a
material active these directives are fatal invalid-instruction errors
instead of setting the fields. -/
theorem c5_map_ke_map_ns_not_recognised :
    (∀ (mats : List Material) (m : Material) (line tok : String)
        (rest : List String), splitWhitespace line = tok :: rest →
        (tok = "map_Ke" ∨ tok = "map_Ns") →
        Mtl.step mats (some m) line = .error (.InvalidInstruction tok)) ∧
    Mtl.load ["newmtl m", "map_Ke tex.png"] = .error (.InvalidInstruction "map_Ke") ∧
    Mtl.load ["newmtl m", "map_Ns tex.png"] = .error (.InvalidInstruction "map_Ns") := by
  refine ⟨?_, by decide, by decide⟩
  intro mats m line tok rest hsplit htok
  unfold Mtl.step
  rw [hsplit]
  dsimp only
  rcases htok with rfl | rfl <;> rfl

theorem c5_map_ke_map_ns_not_recognised_witness :
    Mtl.step [] (some (Material.new "m")) "map_Ke tex.png" =
      .error (.InvalidInstruction "map_Ke") :=
  c5_map_ke_map_ns_not_recognised.1 [] (Material.new "m") "map_Ke tex.png"
    "map_Ke" ["tex.png"] (by decide) (Or.inl rfl)

/-- C6: every accepted file yields exactly one material per `newmtl`
directive, in file order, with duplicate names kept as separate entries
(the returned names are exactly the `newmtl` name tokens of the file). -/
theorem c6_one_material_per_newmtl (lines : List String) (m : Mtl)
    (h : Mtl.load lines = .ok m) :
    m.materials.map Material.name = newmtlNames lines := by
  have := mtl_loadLoop_names lines [] none m h
  simpa using this

theorem c6_one_material_per_newmtl_witness :
    (Mtl.mk [Material.new "a",
      { Material.new "a" with kd := some ((⟨1, 0⟩ : F32), (⟨0, 0⟩ : F32), (⟨0, 0⟩ : F32)) }]).materials.map
        Material.name =
      newmtlNames ["newmtl a", "newmtl a", "Kd 1 0 0"] :=
  c6_one_material_per_newmtl ["newmtl a", "newmtl a", "Kd 1 0 0"]
    (Mtl.mk [Material.new "a",
      { Material.new "a" with kd := some ((⟨1, 0⟩ : F32), (⟨0, 0⟩ : F32), (⟨0, 0⟩ : F32)) }])
    (by decide)

/-- C7: the rest-of-line string parser fails with a missing-value-of-String
error when no token remains, and otherwise joins the remaining tokens with
single spaces regardless of the original spacing (shown both on a concrete
multi-space line and for arbitrary positive space runs). -/
theorem c7_into_string_spacing :
    Mtl.load ["newmtl m", "map_Kd"] = .error (.MissingValue .String) ∧
    Mtl.load ["newmtl m", "map_Kd a  file   name.png"] =
      .ok ⟨[{ Material.new "m" with map_kd := some "a file name.png" }]⟩ ∧
    (∀ n1 n2 n3 : ℕ,
      Mtl.load ["newmtl m",
        "map_Kd" ++ (spacesStr (n1 + 1) ++ ("a" ++ (spacesStr (n2 + 1) ++
          ("file" ++ (spacesStr (n3 + 1) ++ "name.png")))))] =
        .ok ⟨[{ Material.new "m" with map_kd := some "a file name.png" }]⟩) := by
  refine ⟨by decide, by decide, ?_⟩
  intro n1 n2 n3
  have hsplit : splitWhitespace ("map_Kd" ++ (spacesStr (n1 + 1) ++ ("a" ++
      (spacesStr (n2 + 1) ++ ("file" ++ (spacesStr (n3 + 1) ++ "name.png")))))) =
      ["map_Kd", "a", "file", "name.png"] := by
    rw [splitWhitespace_token_spaces "map_Kd" n1 _ (by decide),
      splitWhitespace_token_spaces "a" n2 _ (by decide),
      splitWhitespace_token_spaces "file" n3 _ (by decide),
      splitWhitespace_token "name.png" (by decide)]
  show Mtl.loadLoop [] none _ = _
  rw [mtl_loadLoop_cons_ok
    (show Mtl.step [] none "newmtl m" = .ok ([], some (Material.new "m")) from by decide)]
  have hstep : Mtl.step [] (some (Material.new "m"))
      ("map_Kd" ++ (spacesStr (n1 + 1) ++ ("a" ++ (spacesStr (n2 + 1) ++
        ("file" ++ (spacesStr (n3 + 1) ++ "name.png")))))) =
      .ok ([], some { Material.new "m" with map_kd := some "a file name.png" }) := by
    unfold Mtl.step
    rw [hsplit]
    rfl
  rw [mtl_loadLoop_cons_ok hstep]
  rfl

/-- C8: a `newmtl` line with no name token makes loading fail with
`MissingMaterialName`; with a name token it flushes the material being
built and starts a fresh `Material` with that name whose optional fields
are all absent. -/
theorem c8_newmtl_semantics :
    (∀ (mats : List Material) (cur : Option Material) (line : String)
        (rest : List String), splitWhitespace line = ["newmtl"] →
        Mtl.loadLoop mats cur (line :: rest) = .error .MissingMaterialName) ∧
    (∀ (mats : List Material) (cur : Option Material) (line : String)
        (rest : List String) (name : String) (more : List String),
        splitWhitespace line = "newmtl" :: name :: more →
        Mtl.loadLoop mats cur (line :: rest) =
          Mtl.loadLoop (mats ++ cur.toList) (some (Material.new name)) rest) ∧
    (∀ name : String, Material.new name =
      ⟨name, none, none, none, none, none, none, none, none, none, none, none,
       none, none, none, none, none, none, none, none⟩) := by
  refine ⟨?_, ?_, fun name => rfl⟩
  · intro mats cur line rest hsplit
    have hstep : Mtl.step mats cur line = .error .MissingMaterialName := by
      unfold Mtl.step
      rw [hsplit]
      rfl
    exact mtl_loadLoop_cons_err hstep rest
  · intro mats cur line rest name more hsplit
    have hstep : Mtl.step mats cur line =
        .ok (mats ++ cur.toList, some (Material.new name)) := by
      unfold Mtl.step
      rw [hsplit]
      rfl
    exact mtl_loadLoop_cons_ok hstep rest

theorem c8_newmtl_semantics_witness :
    Mtl.loadLoop [] none ["newmtl"] = .error .MissingMaterialName ∧
    Mtl.loadLoop [] none ["newmtl mat1"] =
      Mtl.loadLoop ([] ++ (none : Option Material).toList)
        (some (Material.new "mat1")) [] :=
  ⟨c8_newmtl_semantics.1 [] none "newmtl" [] (by decide),
   c8_newmtl_semantics.2.1 [] none "newmtl mat1" [] "mat1" [] (by decide)⟩

/-- C10: successfully processing a field directive with a material active
leaves the flushed materials and the material's name unchanged and touches
only the directive's own field; and processing the same field directive
again gives the same result from the once-updated material as from the
original one, so the last occurrence wins. -/
theorem c10_field_directive_frame_and_last_wins :
    (∀ (mats : List Material) (m : Material) (line tok : String)
        (rest : List String) (mats' : List Material) (cur' : Option Material),
        splitWhitespace line = tok :: rest → tok ∈ mtlFieldDirectives →
        Mtl.step mats (some m) line = .ok (mats', cur') →
        mats' = mats ∧ ∃ m', cur' = some m' ∧ m'.name = m.name ∧
          matSameExcept tok m m') ∧
    (∀ (mats : List Material) (m : Material) (line1 line2 tok : String)
        (rest1 rest2 : List String) (st1 : List Material × Option Material),
        splitWhitespace line1 = tok :: rest1 → splitWhitespace line2 = tok :: rest2 →
        tok ∈ mtlFieldDirectives → Mtl.step mats (some m) line1 = .ok st1 →
        Mtl.step st1.1 st1.2 line2 = Mtl.step mats (some m) line2) :=
  ⟨fun _ _ _ _ _ _ _ h1 h2 h3 => mtl_step_field h1 h2 h3,
   fun _ _ _ _ _ _ _ _ h1 h2 h3 h4 => mtl_step_field_idem h1 h2 h3 h4⟩

theorem c10_field_directive_frame_and_last_wins_witness :
    (([] : List Material) = [] ∧ ∃ m',
        (some { Material.new "m" with ns := some (⟨2, 0⟩ : F32) } : Option Material) =
          some m' ∧
        m'.name = (Material.new "m").name ∧ matSameExcept "Ns" (Material.new "m") m') ∧
    Mtl.step [] (some { Material.new "m" with ns := some (⟨2, 0⟩ : F32) }) "Ns 350" =
      Mtl.step [] (some (Material.new "m")) "Ns 350" :=
  ⟨c10_field_directive_frame_and_last_wins.1 [] (Material.new "m") "Ns 2" "Ns" ["2"]
      [] (some { Material.new "m" with ns := some (⟨2, 0⟩ : F32) })
      (by decide) (by decide) (by decide),
   c10_field_directive_frame_and_last_wins.2 [] (Material.new "m") "Ns 2" "Ns 350" "Ns"
      ["2"] ["350"] ([], some { Material.new "m" with ns := some (⟨2, 0⟩ : F32) })
      (by decide) (by decide) (by decide) (by decide)⟩
